import Mathlib

set_option maxHeartbeats 1000000
set_option maxRecDepth 4000
set_option linter.unreachableTactic false
set_option linter.unusedTactic false

/-!
Shallow embedding of `src/algorithm/embedded_dual.py`: the embedded planar
dual multigraph (vertices / edges / half-edges arenas plus a rotation table),
its `validate` invariant checker, the two refinement operations `split_arc`
and `vertex_split`, the JSON snapshot import/export, and the raster
construction `build_embedded_dual_from_raster`.

Modelling conventions:
- Python `int` fields are `Int`; list indexing follows Python semantics
  (negative indices wrap once, out-of-range raises) via `pyGet` / `pySet`.
- In-place mutation with possible exceptions is modelled by returning the
  final state of the object together with an `Except String` result: an
  `.error` result carries the state at the moment the exception was raised.
- Python floats in this module are only ever constructed from halves
  (`/ 2.0`, `± 0.5`) and otherwise copied verbatim, so they are modelled
  exactly by `Rat`.
- Python `dict`s are association lists in insertion order (updates keep the
  original position); the one `set` whose iteration order the code consumes
  (`unvisited` in component grouping) is modelled as a list in insertion
  order, which fixes one of the CPython-implementation-defined orders.
-/

deriving instance DecidableEq for Except

namespace JuleHjerte

/-- Vertex record (`DualVertex` dataclass). -/
structure DualVertex where
  id : Int
  kind : String
  color : Option Int
  parent : Option Int
  side : Option String := none
  centroid : Option (Rat × Rat) := none
deriving DecidableEq, Repr

/-- Half-edge record (`HalfEdge` dataclass). -/
structure HalfEdge where
  id : Int
  edge : Int
  origin : Int
deriving DecidableEq, Repr

/-- Edge record (`DualEdge` dataclass). -/
structure DualEdge where
  id : Int
  u : Int
  v : Int
  kind : String
  he_u : Int
  he_v : Int
deriving DecidableEq, Repr

/-- The graph object (`EmbeddedDualGraph`). -/
structure EmbeddedDualGraph where
  vertices : List DualVertex
  edges : List DualEdge
  halfedges : List HalfEdge
  rotation : List (List Int)
deriving DecidableEq, Repr

/-- Python list read `xs[i]`: negative indices wrap once; out of range is
`none` (an `IndexError`). -/
def pyGet {α : Type} (xs : List α) (i : Int) : Option α :=
  if 0 ≤ i then xs.get? i.toNat
  else if 0 ≤ i + xs.length then xs.get? (i + xs.length).toNat
  else none

/-- Python list element assignment `xs[i] = a` (callers only use it with an
index already established to be readable, so the out-of-range branch keeps
the list unchanged). -/
def pySet {α : Type} (xs : List α) (i : Int) (a : α) : List α :=
  if 0 ≤ i then xs.set i.toNat a
  else if 0 ≤ i + xs.length then xs.set (i + xs.length).toNat a
  else xs

/-- Python `xs.insert(k, a)` for a non-negative position (clamps to append
when `k` exceeds the length). -/
def pyInsert {α : Type} (xs : List α) (k : Nat) (a : α) : List α :=
  xs.take k ++ a :: xs.drop k

/-- Python `xs.index(x)`: first index of `x`, `none` models `ValueError`. -/
def pyIndex (xs : List Int) (x : Int) : Option Nat :=
  match xs with
  | [] => none
  | y :: ys => if y = x then some 0 else (pyIndex ys x).map (· + 1)

/-- `_cycle_slice(items, i, j)`: `items[i:j]` on a cyclic sequence. -/
def cycle_slice (items : List Int) (i j : Int) : List Int :=
  if items.length = 0 then []
  else
    let n : Int := items.length
    let i' := (i.emod n).toNat
    let j' := (j.emod n).toNat
    if i' < j' then (items.drop i').take (j' - i')
    else items.drop i' ++ items.take j'

/-- One check of `validate`'s rotation loop: half-edge id `he` listed in
`rotation[vid]` is in range and owned by vertex `vid`. -/
def rotEntryOk (halfedges : List HalfEdge) (vid : Nat) (he : Int) : Bool :=
  decide (0 ≤ he) && decide (he < (halfedges.length : Int)) &&
    (match pyGet halfedges he with
     | some h => decide (h.origin = (vid : Int))
     | none => false)

/-- `validate`'s rotation loop over all vertex ids, starting at `vid`. -/
def rotAllOk (halfedges : List HalfEdge) : Nat → List (List Int) → Bool
  | _, [] => true
  | vid, r :: rest => r.all (rotEntryOk halfedges vid) && rotAllOk halfedges (vid + 1) rest

/-- `validate`'s per-edge checks (they do not depend on the edge's position
in the list, matching the `for e in self.edges` loop). -/
def edgeOk (halfedges : List HalfEdge) (rotation : List (List Int)) (ecount : Nat)
    (e : DualEdge) : Bool :=
  decide (0 ≤ e.id) && decide (e.id < (ecount : Int)) &&
  decide (0 ≤ e.he_u) && decide (e.he_u < (halfedges.length : Int)) &&
  decide (0 ≤ e.he_v) && decide (e.he_v < (halfedges.length : Int)) &&
  (match pyGet halfedges e.he_u, pyGet halfedges e.he_v with
   | some hu, some hv =>
     decide (hu.edge = e.id) && decide (hv.edge = e.id) &&
     decide (hu.origin = e.u) && decide (hv.origin = e.v)
   | _, _ => false) &&
  (match pyGet rotation e.u, pyGet rotation e.v with
   | some ru, some rv => decide (e.he_u ∈ ru) && decide (e.he_v ∈ rv)
   | _, _ => false)

/-- `validate()`: `true` iff no check raises. -/
def validate (g : EmbeddedDualGraph) : Bool :=
  decide (g.rotation.length = g.vertices.length) &&
  rotAllOk g.halfedges 0 g.rotation &&
  g.edges.all (edgeOk g.halfedges g.rotation g.edges.length)

/-- `vertex_count` property. -/
def vertex_count (g : EmbeddedDualGraph) : Nat := g.vertices.length

/-- `edge_count` property. -/
def edge_count (g : EmbeddedDualGraph) : Nat := g.edges.length

/-- `split_arc(edge_id)`: replace edge `e` with two parallel edges inserted
consecutively in both endpoint rotations.  Returns the final state of the
graph object together with the result (`.error` = exception raised at that
point, with the mutations already performed kept, as in Python). -/
def split_arc (g : EmbeddedDualGraph) (edge_id : Int) :
    EmbeddedDualGraph × Except String Int :=
  if edge_id < 0 ∨ (g.edges.length : Int) ≤ edge_id then
    (g, .error "edge_id out of range")
  else
    match pyGet g.edges edge_id with
    | none => (g, .error "IndexError")
    | some e =>
      let u := e.u
      let v := e.v
      let new_eid : Int := g.edges.length
      let he_u : Int := g.halfedges.length
      let he_v : Int := he_u + 1
      let halfedges1 := g.halfedges ++ [⟨he_u, new_eid, u⟩, ⟨he_v, new_eid, v⟩]
      let edges1 := g.edges ++ [⟨new_eid, u, v, e.kind, he_u, he_v⟩]
      let g1 : EmbeddedDualGraph := { g with halfedges := halfedges1, edges := edges1 }
      match pyGet g1.rotation u with
      | none => (g1, .error "IndexError")
      | some rotu =>
        match pyIndex rotu e.he_u with
        | none => (g1, .error "edge halfedge missing from rotation system")
        | some iu =>
          match pyGet g1.rotation v with
          | none => (g1, .error "IndexError")
          | some rotv =>
            match pyIndex rotv e.he_v with
            | none => (g1, .error "edge halfedge missing from rotation system")
            | some iv =>
              let rot1 := pySet g1.rotation u (pyInsert rotu (iu + 1) he_u)
              let rotv2 := (pyGet rot1 v).getD []
              let rot2 := pySet rot1 v (pyInsert rotv2 (iv + 1) he_v)
              ({ g1 with rotation := rot2 }, .ok new_eid)

/-- The reattachment loop of `vertex_split`: for each moved half-edge id,
set its origin to `new_vid` and rewire the matching endpoint of the edge it
points to.  State is threaded; an error keeps the mutations already made. -/
def reattach (new_vid : Int) :
    List Int → List HalfEdge → List DualEdge →
    (List HalfEdge × List DualEdge) × Except String Unit
  | [], hs, es => ((hs, es), .ok ())
  | he :: rest, hs, es =>
    match pyGet hs he with
    | none => ((hs, es), .error "IndexError")
    | some h =>
      let hs1 := pySet hs he { h with origin := new_vid }
      match pyGet es h.edge with
      | none => ((hs1, es), .error "IndexError")
      | some e =>
        if e.he_u = he then
          reattach new_vid rest hs1 (pySet es h.edge { e with u := new_vid })
        else if e.he_v = he then
          reattach new_vid rest hs1 (pySet es h.edge { e with v := new_vid })
        else
          ((hs1, es), .error "halfedge does not match either endpoint on its edge")

/-- `vertex_split(vertex_id, i, j)`: split face vertex `v` into `v` and `v'`,
moving the cyclic interval `[i, j)` of incident half-edges to `v'`, and add
an internal edge `(v, v')`. -/
def vertex_split (g : EmbeddedDualGraph) (vertex_id i j : Int) :
    EmbeddedDualGraph × Except String (Int × Int) :=
  if vertex_id < 0 ∨ (g.vertices.length : Int) ≤ vertex_id then
    (g, .error "vertex_id out of range")
  else
    match pyGet g.vertices vertex_id with
    | none => (g, .error "IndexError")
    | some v =>
      if v.kind ≠ "face" then (g, .error "VertexSplit is only supported for face vertices")
      else
        match pyGet g.rotation vertex_id with
        | none => (g, .error "IndexError")
        | some rot =>
          if rot.length < 2 then (g, .error "VertexSplit requires degree >= 2")
          else if ¬ (0 ≤ i ∧ i < (rot.length : Int) ∧ 0 ≤ j ∧ j < (rot.length : Int)) then
            (g, .error "i/j out of range")
          else if i = j then (g, .error "i and j must be different")
          else
            let moved := cycle_slice rot i j
            let remaining := cycle_slice rot j i
            if moved = [] ∨ remaining = [] then
              (g, .error "VertexSplit must move a non-empty proper subset of halfedges")
            else
              let new_vid : Int := g.vertices.length
              let nv : DualVertex :=
                { id := new_vid, kind := "face", color := v.color,
                  parent := some ((v.parent).getD v.id), centroid := v.centroid }
              let vertices1 := g.vertices ++ [nv]
              let rotation1 := g.rotation ++ [[]]
              match reattach new_vid moved g.halfedges g.edges with
              | ((hs1, es1), .error msg) =>
                ({ vertices := vertices1, edges := es1, halfedges := hs1,
                   rotation := rotation1 }, .error msg)
              | ((hs1, es1), .ok _) =>
                let new_eid : Int := es1.length
                let he_v : Int := hs1.length
                let he_vp : Int := he_v + 1
                let hs2 := hs1 ++ [⟨he_v, new_eid, vertex_id⟩, ⟨he_vp, new_eid, new_vid⟩]
                let es2 := es1 ++ [⟨new_eid, vertex_id, new_vid, "internal", he_v, he_vp⟩]
                let rotation2 := pySet rotation1 vertex_id (remaining ++ [he_v])
                let rotation3 := pySet rotation2 new_vid (moved ++ [he_vp])
                ({ vertices := vertices1, edges := es2, halfedges := hs2,
                   rotation := rotation3 }, .ok (new_vid, new_eid))

/-! ### Snapshot import/export (`to_json_dict` / `from_json_dict`)

Python values flowing through the snapshot code.  `vtuple` and `vlist` are
distinct because `from_json_dict` distinguishes them (`isinstance(c, list)`).
`float` values are modelled by `Rat` (they are only copied here).  Two
modelling restrictions, each noted where used: dataclass keyword arguments
are type-checked on parse (Python would store ill-typed values unchecked),
and `int(x)` / `float(x)` accept only numeric values (not strings). -/
inductive PyVal where
  | vint (n : Int)
  | vfloat (q : Rat)
  | vstr (s : String)
  | vnone
  | vlist (xs : List PyVal)
  | vtuple (xs : List PyVal)
  | vdict (kvs : List (String × PyVal))

/-- Python `dict.get(k)` on an insertion-ordered association list. -/
def dictGet (kvs : List (String × PyVal)) (k : String) : Option PyVal :=
  match kvs with
  | [] => none
  | (k', v) :: rest => if k' = k then some v else dictGet rest k

/-- Python `d[k] = v`: replace in place, else append. -/
def dictSet (kvs : List (String × PyVal)) (k : String) (v : PyVal) :
    List (String × PyVal) :=
  match kvs with
  | [] => [(k, v)]
  | (k', v') :: rest => if k' = k then (k', v) :: rest else (k', v') :: dictSet rest k v

def optIntToPy : Option Int → PyVal
  | some n => .vint n
  | none => .vnone

def optStrToPy : Option String → PyVal
  | some s => .vstr s
  | none => .vnone

def centroidToPy : Option (Rat × Rat) → PyVal
  | some c => .vtuple [.vfloat c.1, .vfloat c.2]
  | none => .vnone

/-- `asdict` of a `DualVertex` (field order of the dataclass). -/
def vertexToPy (v : DualVertex) : PyVal :=
  .vdict [("id", .vint v.id), ("kind", .vstr v.kind), ("color", optIntToPy v.color),
          ("parent", optIntToPy v.parent), ("side", optStrToPy v.side),
          ("centroid", centroidToPy v.centroid)]

/-- `asdict` of a `DualEdge`. -/
def edgeToPy (e : DualEdge) : PyVal :=
  .vdict [("id", .vint e.id), ("u", .vint e.u), ("v", .vint e.v),
          ("kind", .vstr e.kind), ("he_u", .vint e.he_u), ("he_v", .vint e.he_v)]

/-- `asdict` of a `HalfEdge`. -/
def halfedgeToPy (h : HalfEdge) : PyVal :=
  .vdict [("id", .vint h.id), ("edge", .vint h.edge), ("origin", .vint h.origin)]

/-- `to_json_dict()`. -/
def to_json_dict (g : EmbeddedDualGraph) : PyVal :=
  .vdict [("vertices", .vlist (g.vertices.map vertexToPy)),
          ("edges", .vlist (g.edges.map edgeToPy)),
          ("halfedges", .vlist (g.halfedges.map halfedgeToPy)),
          ("rotation", .vlist (g.rotation.map (fun r => .vlist (r.map PyVal.vint))))]

def asInt : PyVal → Except String Int
  | .vint n => .ok n
  | _ => .error "TypeError: expected int"

def asStr : PyVal → Except String String
  | .vstr s => .ok s
  | _ => .error "TypeError: expected str"

def asOptInt : PyVal → Except String (Option Int)
  | .vint n => .ok (some n)
  | .vnone => .ok none
  | _ => .error "TypeError: expected int or None"

def asOptStr : PyVal → Except String (Option String)
  | .vstr s => .ok (some s)
  | .vnone => .ok none
  | _ => .error "TypeError: expected str or None"

/-- Python `float(x)` on the values reaching it here. -/
def asFloat : PyVal → Except String Rat
  | .vint n => .ok (n : Rat)
  | .vfloat q => .ok q
  | _ => .error "TypeError: float() argument"

def asCentroid : PyVal → Except String (Option (Rat × Rat))
  | .vnone => .ok none
  | .vtuple [a, b] =>
    match asFloat a, asFloat b with
    | .ok x, .ok y => .ok (some (x, y))
    | _, _ => .error "TypeError: float() argument"
  | _ => .error "unsupported centroid value"

def vertexKeysOk (kvs : List (String × PyVal)) : Bool :=
  kvs.all (fun kv => kv.1 == "id" || kv.1 == "kind" || kv.1 == "color" ||
    kv.1 == "parent" || kv.1 == "side" || kv.1 == "centroid")

/-- One vertex entry of `from_json_dict`: the `isinstance(v, dict)` check,
the centroid list-to-tuple conversion, then `DualVertex(**v)`. -/
def vertexFromPy : PyVal → Except String DualVertex
  | .vdict kvs =>
    let step : Except String (List (String × PyVal)) :=
      match dictGet kvs "centroid" with
      | some (.vlist [a, b]) =>
        match asFloat a, asFloat b with
        | .ok x, .ok y => .ok (dictSet kvs "centroid" (.vtuple [.vfloat x, .vfloat y]))
        | _, _ => .error "TypeError: float() argument"
      | _ => .ok kvs
    match step with
    | .error m => .error m
    | .ok kvs' =>
      if vertexKeysOk kvs' then
        match dictGet kvs' "id", dictGet kvs' "kind", dictGet kvs' "color",
              dictGet kvs' "parent" with
        | some pid, some pkind, some pcolor, some pparent =>
          (match asInt pid, asStr pkind, asOptInt pcolor, asOptInt pparent,
                 asOptStr ((dictGet kvs' "side").getD .vnone),
                 asCentroid ((dictGet kvs' "centroid").getD .vnone) with
           | .ok i, .ok k, .ok c, .ok p, .ok s, .ok cen =>
             .ok { id := i, kind := k, color := c, parent := p, side := s, centroid := cen }
           | _, _, _, _, _, _ => .error "TypeError: bad field value")
        | _, _, _, _ => .error "TypeError: missing required field"
      else .error "TypeError: unexpected keyword argument"
  | _ => .error "Invalid vertex entry in JSON"

def edgeKeysOk (kvs : List (String × PyVal)) : Bool :=
  kvs.all (fun kv => kv.1 == "id" || kv.1 == "u" || kv.1 == "v" ||
    kv.1 == "kind" || kv.1 == "he_u" || kv.1 == "he_v")

/-- One edge entry: `isinstance(e, dict)` then `DualEdge(**e)`. -/
def edgeFromPy : PyVal → Except String DualEdge
  | .vdict kvs =>
    if edgeKeysOk kvs then
      match dictGet kvs "id", dictGet kvs "u", dictGet kvs "v", dictGet kvs "kind",
            dictGet kvs "he_u", dictGet kvs "he_v" with
      | some pid, some pu, some pv, some pk, some phu, some phv =>
        (match asInt pid, asInt pu, asInt pv, asStr pk, asInt phu, asInt phv with
         | .ok i, .ok u, .ok v, .ok k, .ok hu, .ok hv =>
           .ok { id := i, u := u, v := v, kind := k, he_u := hu, he_v := hv }
         | _, _, _, _, _, _ => .error "TypeError: bad field value")
      | _, _, _, _, _, _ => .error "TypeError: missing required field"
    else .error "TypeError: unexpected keyword argument"
  | _ => .error "Invalid edge entry in JSON"

def halfedgeKeysOk (kvs : List (String × PyVal)) : Bool :=
  kvs.all (fun kv => kv.1 == "id" || kv.1 == "edge" || kv.1 == "origin")

/-- One half-edge entry: `isinstance(h, dict)` then `HalfEdge(**h)`. -/
def halfedgeFromPy : PyVal → Except String HalfEdge
  | .vdict kvs =>
    if halfedgeKeysOk kvs then
      match dictGet kvs "id", dictGet kvs "edge", dictGet kvs "origin" with
      | some pid, some pe, some po =>
        (match asInt pid, asInt pe, asInt po with
         | .ok i, .ok e, .ok o => .ok { id := i, edge := e, origin := o }
         | _, _, _ => .error "TypeError: bad field value")
      | _, _, _ => .error "TypeError: missing required field"
    else .error "TypeError: unexpected keyword argument"
  | _ => .error "Invalid halfedge entry in JSON"

def parseVertices : List PyVal → Except String (List DualVertex)
  | [] => .ok []
  | x :: xs =>
    match vertexFromPy x with
    | .error m => .error m
    | .ok v =>
      match parseVertices xs with
      | .error m => .error m
      | .ok rest => .ok (v :: rest)

def parseEdges : List PyVal → Except String (List DualEdge)
  | [] => .ok []
  | x :: xs =>
    match edgeFromPy x with
    | .error m => .error m
    | .ok e =>
      match parseEdges xs with
      | .error m => .error m
      | .ok rest => .ok (e :: rest)

def parseHalfEdges : List PyVal → Except String (List HalfEdge)
  | [] => .ok []
  | x :: xs =>
    match halfedgeFromPy x with
    | .error m => .error m
    | .ok h =>
      match parseHalfEdges xs with
      | .error m => .error m
      | .ok rest => .ok (h :: rest)

/-- `[int(x) for x in r]`. -/
def intList : List PyVal → Except String (List Int)
  | [] => .ok []
  | x :: xs =>
    match asInt x with
    | .error m => .error m
    | .ok n =>
      match intList xs with
      | .error m => .error m
      | .ok rest => .ok (n :: rest)

def parseRotation : List PyVal → Except String (List (List Int))
  | [] => .ok []
  | x :: xs =>
    match x with
    | .vlist r =>
      (match intList r with
       | .error m => .error m
       | .ok row =>
         match parseRotation xs with
         | .error m => .error m
         | .ok rest => .ok (row :: rest))
    | _ => .error "Invalid rotation entry in JSON"

/-- `from_json_dict(data)`: parse the four collections, then `validate()`. -/
def from_json_dict (data : PyVal) : Except String EmbeddedDualGraph :=
  match data with
  | .vdict kvs =>
    match (dictGet kvs "vertices").getD .vnone, (dictGet kvs "edges").getD .vnone,
          (dictGet kvs "halfedges").getD .vnone, (dictGet kvs "rotation").getD .vnone with
    | .vlist vraw, .vlist eraw, .vlist hraw, .vlist rraw =>
      (match parseVertices vraw with
       | .error m => .error m
       | .ok vertices =>
         match parseEdges eraw with
         | .error m => .error m
         | .ok edges =>
           match parseHalfEdges hraw with
           | .error m => .error m
           | .ok halfedges =>
             match parseRotation rraw with
             | .error m => .error m
             | .ok rot =>
               let g : EmbeddedDualGraph :=
                 { vertices := vertices, edges := edges, halfedges := halfedges,
                   rotation := rot }
               if validate g then .ok g else .error "ValidationError")
    | _, _, _, _ => .error "Invalid embedded dual JSON: expected lists"
  | _ => .error "AttributeError: data is not a dict"

/-! ### Raster construction (`build_embedded_dual_from_raster`) -/

/-- `VisibleFace` dataclass. -/
structure VisibleFace where
  id : Int
  color : Int
  centroid : Option (Rat × Rat)
deriving DecidableEq, Repr

/-- `_MicroEdge` dataclass; its `key()` is injective on the fields, so the
record itself serves as the dictionary key. -/
structure MicroEdge where
  p0 : Int × Int
  p1 : Int × Int
  left_face : Int
  right_face : Int
deriving DecidableEq, Repr

/-- `microedges[mid]` at call sites where `mid` was produced by `add_micro`
and is therefore always in range; the default is unreachable. -/
def getMicro (micros : List MicroEdge) (mid : Nat) : MicroEdge :=
  (micros.get? mid).getD ⟨(0, 0), (0, 0), -2, -2⟩

/-- `comp[y][x]` with non-negative indices. -/
def compAt (comp : List (List Int)) (y x : Nat) : Option Int :=
  match comp.get? y with
  | some row => row.get? x
  | none => none

/-- `_boundary_runs` inner loop: `cur`/`start` state, scanning from index `i`. -/
def boundaryRunsGo (cur : Int) (start i : Nat) : List Int → List (Int × Nat × Nat)
  | [] => [(cur, start, i)]
  | v :: rest =>
    if v ≠ cur then (cur, start, i) :: boundaryRunsGo v i (i + 1) rest
    else boundaryRunsGo cur start (i + 1) rest

/-- `_boundary_runs(seq)`: maximal runs `(face_id, start, end_excl)`. -/
def boundary_runs (seq : List Int) : List (Int × Nat × Nat) :=
  match seq with
  | [] => []
  | s :: rest => boundaryRunsGo s 0 1 rest

/-- `pair_to_micro.setdefault(pair, []).append(mid)`. -/
def multiAdd (m : List ((Int × Int) × List Nat)) (k : Int × Int) (v : Nat) :
    List ((Int × Int) × List Nat) :=
  match m with
  | [] => [(k, [v])]
  | (k', vs) :: rest =>
    if k' = k then (k', vs ++ [v]) :: rest else (k', vs) :: multiAdd rest k v

/-- Accumulated state of the micro-edge collection loop. -/
structure MicroState where
  micros : List MicroEdge
  pairMap : List ((Int × Int) × List Nat)
deriving Repr

/-- Body of the pixel double loop for one cell `(y, x)`. -/
def microCell (comp : List (List Int)) (w h : Nat) (y x : Nat) (st : MicroState) :
    Except String MicroState :=
  match compAt comp y x with
  | none => .error "IndexError"
  | some a =>
    let stepRight : Except String MicroState :=
      if x + 1 < w then
        match compAt comp y (x + 1) with
        | none => .error "IndexError"
        | some b =>
          if a ≠ b then
            let me : MicroEdge := ⟨((x : Int) + 1, (y : Int) + 1), ((x : Int) + 1, (y : Int)), a, b⟩
            let mid := st.micros.length
            .ok ⟨st.micros ++ [me], multiAdd st.pairMap (if a < b then (a, b) else (b, a)) mid⟩
          else .ok st
      else .ok st
    match stepRight with
    | .error m => .error m
    | .ok st1 =>
      if y + 1 < h then
        match compAt comp (y + 1) x with
        | none => .error "IndexError"
        | some b =>
          if a ≠ b then
            let me : MicroEdge := ⟨((x : Int), (y : Int) + 1), ((x : Int) + 1, (y : Int) + 1), a, b⟩
            let mid := st1.micros.length
            .ok ⟨st1.micros ++ [me], multiAdd st1.pairMap (if a < b then (a, b) else (b, a)) mid⟩
          else .ok st1
      else .ok st1

/-- The full `for y … for x …` micro-edge collection loop. -/
def collectMicros (comp : List (List Int)) (w h : Nat) : Except String MicroState :=
  (List.range h).foldl
    (fun acc y =>
      match acc with
      | .error m => .error m
      | .ok st =>
        (List.range w).foldl
          (fun acc2 x =>
            match acc2 with
            | .error m => .error m
            | .ok st2 => microCell comp w h y x st2)
          (.ok st))
    (.ok ⟨[], []⟩)

/-- `add_dual_edge(u, v, kind)` closure: allocates one edge and two half-edges. -/
def add_dual_edge (edges : List DualEdge) (halfedges : List HalfEdge)
    (u v : Int) (kind : String) : List DualEdge × List HalfEdge × Int :=
  let eid : Int := edges.length
  let he_u : Int := halfedges.length
  let he_v : Int := he_u + 1
  (edges ++ [⟨eid, u, v, kind, he_u, he_v⟩],
   halfedges ++ [⟨he_u, eid, u⟩, ⟨he_v, eid, v⟩], eid)

/-- Lookup in a grid-point keyed multimap (`ep.get(p, [])`). -/
def pointGet (m : List ((Int × Int) × List Nat)) (k : Int × Int) : List Nat :=
  match m with
  | [] => []
  | (k', vs) :: rest => if k' = k then vs else pointGet rest k

/-- `endpoint_adjacency(mids)`. -/
def endpoint_adjacency (micros : List MicroEdge) (mids : List Nat) :
    List ((Int × Int) × List Nat) :=
  mids.foldl
    (fun m mid =>
      let me := getMicro micros mid
      multiAdd (multiAdd m me.p0 mid) me.p1 mid)
    []

/-- Stable insertion sort by unordered-pair key, modelling
`sorted(pair_to_micro.items())` (keys are distinct, so any correct sort
produces the same list). -/
def insortPair (x : (Int × Int) × List Nat) :
    List ((Int × Int) × List Nat) → List ((Int × Int) × List Nat)
  | [] => [x]
  | y :: ys =>
    if x.1.1 < y.1.1 ∨ (x.1.1 = y.1.1 ∧ x.1.2 < y.1.2) then x :: y :: ys
    else y :: insortPair x ys

def sortPairs (m : List ((Int × Int) × List Nat)) : List ((Int × Int) × List Nat) :=
  m.foldl (fun acc x => insortPair x acc) []

/-- The inner `while stack:` DFS of the component grouping.  `fuel` bounds
the iteration count (sufficient fuel is supplied by the caller); the stack
pops from the end as Python's `list.pop()` does.  Returns the component in
pop order together with the remaining unvisited list. -/
def dfsStack (micros : List MicroEdge) (ep : List ((Int × Int) × List Nat)) :
    Nat → List Nat → List Nat → List Nat → List Nat × List Nat
  | 0, _, unvisited, acc => (acc, unvisited)
  | fuel + 1, stack, unvisited, acc =>
    match stack.reverse with
    | [] => (acc, unvisited)
    | cur :: restRev =>
      let stack1 := restRev.reverse
      let me := getMicro micros cur
      let step := fun (su : List Nat × List Nat) (p : Int × Int) =>
        (pointGet ep p).foldl
          (fun (su2 : List Nat × List Nat) nxt =>
            if nxt ∈ su2.2 then (su2.1 ++ [nxt], su2.2.erase nxt) else su2)
          su
      let su3 := step (step (stack1, unvisited) me.p0) me.p1
      dfsStack micros ep fuel su3.1 su3.2 (acc ++ [cur])

/-- The outer `while unvisited:` loop: extract connected components of a
pair's micro-edges.  The unvisited set is modelled as a list in insertion
order; `next(iter(unvisited))` takes its head. -/
def componentsLoop (micros : List MicroEdge) (ep : List ((Int × Int) × List Nat)) :
    Nat → List Nat → List (List Nat) → List (List Nat)
  | 0, _, acc => acc
  | fuel + 1, unvisited, acc =>
    match unvisited with
    | [] => acc
    | start :: rest =>
      let res := dfsStack micros ep (rest.length + 2) [start] rest []
      componentsLoop micros ep fuel res.2 (acc ++ [res.1])

/-- `micro_to_dual_edge[key] = eid` (keys are the micro-edge records). -/
def mtdSet (m : List (MicroEdge × Int)) (k : MicroEdge) (v : Int) :
    List (MicroEdge × Int) :=
  match m with
  | [] => [(k, v)]
  | (k', v') :: rest =>
    if k' = k then (k', v) :: rest else (k', v') :: mtdSet rest k v

/-- `micro_to_dual_edge.get(key)`. -/
def mtdGet (m : List (MicroEdge × Int)) (k : MicroEdge) : Option Int :=
  match m with
  | [] => none
  | (k', v) :: rest => if k' = k then some v else mtdGet rest k

/-- One dual edge per connected component of boundary micro-edges of each
face pair, in sorted pair order. -/
def buildPairEdges (micros : List MicroEdge) :
    List ((Int × Int) × List Nat) →
    List DualEdge × List HalfEdge × List (MicroEdge × Int) →
    List DualEdge × List HalfEdge × List (MicroEdge × Int)
  | [], st => st
  | (ab, mids) :: rest, st =>
    let ep := endpoint_adjacency micros mids
    let comps := componentsLoop micros ep (mids.length + 2) mids []
    let st2 := comps.foldl
      (fun (st1 : List DualEdge × List HalfEdge × List (MicroEdge × Int)) compMids =>
        let r := add_dual_edge st1.1 st1.2.1 ab.1 ab.2 "boundary"
        let mtd2 := compMids.foldl (fun m mid => mtdSet m (getMicro micros mid) r.2.2) st1.2.2
        (r.1, r.2.1, mtd2))
      st
    buildPairEdges micros rest st2

/-- Accumulated graph state while the constructor runs. -/
structure BuildState where
  vertices : List DualVertex
  rotation : List (List Int)
  edges : List DualEdge
  halfedges : List HalfEdge
  micros : List MicroEdge
  mtd : List (MicroEdge × Int)
deriving Repr

/-- Centroid placement of `add_green` (exact: all values are halves). -/
def greenCentroid (side : String) (w h : Int) (start end_excl : Nat) : Rat × Rat :=
  if side = "top" ∨ side = "bottom" then
    (((start : Rat) + (end_excl : Rat)) / 2,
     if side = "top" then -(1 / 2 : Rat) else (h : Rat) + 1 / 2)
  else
    (if side = "left" then -(1 / 2 : Rat) else (w : Rat) + 1 / 2,
     ((start : Rat) + (end_excl : Rat)) / 2)

/-- `add_green(side, face_id, start, end_excl)`. -/
def add_green (st : BuildState) (w h : Int) (side : String) (face_id : Int)
    (start end_excl : Nat) : BuildState × Int × Int :=
  let gid : Int := st.vertices.length
  let c := greenCentroid side w h start end_excl
  let gv : DualVertex :=
    { id := gid, kind := "green", color := none, parent := none,
      side := some side, centroid := some c }
  let vertices1 := st.vertices ++ [gv]
  let rotation1 := st.rotation ++ [[]]
  let r := add_dual_edge st.edges st.halfedges face_id gid "boundary"
  let st' : BuildState :=
    { st with
      vertices := vertices1, rotation := rotation1, edges := r.1,
      halfedges := r.2.1 }
  (st', gid, r.2.2)

/-- Process one image side: one green vertex and edge per boundary run, plus
one synthetic micro-edge per covered boundary pixel. -/
def greenSide (w h : Int) (side : String) (seq : List Int)
    (mkMicro : Int → Nat → MicroEdge) (st : BuildState) : BuildState :=
  (boundary_runs seq).foldl
    (fun st1 run =>
      let face_id := run.1
      let start := run.2.1
      let end_excl := run.2.2
      let r := add_green st1 w h side face_id start end_excl
      (List.range (end_excl - start)).foldl
        (fun st3 k =>
          let me := mkMicro face_id (start + k)
          { st3 with micros := st3.micros ++ [me], mtd := mtdSet st3.mtd me r.2.2 })
        r.1)
    st

/-- Extract a pixel sequence `[int(comp[y][x]) for …]` (Python indexing). -/
def extractSeq (comp : List (List Int)) : List (Int × Int) → Except String (List Int)
  | [] => .ok []
  | (y, x) :: rest =>
    match pyGet comp y with
    | none => .error "IndexError"
    | some row =>
      match pyGet row x with
      | none => .error "IndexError"
      | some a =>
        match extractSeq comp rest with
        | .error m => .error m
        | .ok l => .ok (a :: l)

/-- The whole `if green_sides:` block (all four sides run under `if h > 0`,
as in the source). -/
def greenPorts (comp : List (List Int)) (w h : Int) (st : BuildState) :
    Except String BuildState :=
  if 0 < h then
    match extractSeq comp ((List.range w.toNat).map fun x => ((0 : Int), (x : Int))) with
    | .error m => .error m
    | .ok topSeq =>
      let st1 := greenSide w h "top" topSeq
        (fun face x => ⟨((x : Int), 0), ((x : Int) + 1, 0), -1, face⟩) st
      match extractSeq comp ((List.range w.toNat).map fun x => (h - 1, (x : Int))) with
      | .error m => .error m
      | .ok botSeq =>
        let st2 := greenSide w h "bottom" botSeq
          (fun face x => ⟨((x : Int), h), ((x : Int) + 1, h), face, -1⟩) st1
        match extractSeq comp ((List.range h.toNat).map fun y => ((y : Int), (0 : Int))) with
        | .error m => .error m
        | .ok leftSeq =>
          let st3 := greenSide w h "left" leftSeq
            (fun face y => ⟨(0, (y : Int) + 1), (0, (y : Int)), -1, face⟩) st2
          match extractSeq comp ((List.range h.toNat).map fun y => ((y : Int), w - 1)) with
          | .error m => .error m
          | .ok rightSeq =>
            .ok (greenSide w h "right" rightSeq
              (fun face y => ⟨(w, (y : Int) + 1), (w, (y : Int)), face, -1⟩) st3)
  else .ok st

/-- `out_map[fid].setdefault(p0, set()).add(p1)`: the per-point target set
is kept as a duplicate-free list (only membership is ever consumed). -/
def ptsetAdd (m : List ((Int × Int) × List (Int × Int))) (k p : Int × Int) :
    List ((Int × Int) × List (Int × Int)) :=
  match m with
  | [] => [(k, [p])]
  | (k', ps) :: rest =>
    if k' = k then (k', if p ∈ ps then ps else ps ++ [p]) :: rest
    else (k', ps) :: ptsetAdd rest k p

/-- `out_map[fid].get(p, set())`. -/
def ptsetGet (m : List ((Int × Int) × List (Int × Int))) (k : Int × Int) :
    List (Int × Int) :=
  match m with
  | [] => []
  | (k', ps) :: rest => if k' = k then ps else ptsetGet rest k

/-- `dir_to_micro[fid][(p0, p1)] = mid`. -/
def dirSet (m : List (((Int × Int) × (Int × Int)) × Nat))
    (k : (Int × Int) × (Int × Int)) (v : Nat) :
    List (((Int × Int) × (Int × Int)) × Nat) :=
  match m with
  | [] => [(k, v)]
  | (k', v') :: rest =>
    if k' = k then (k', v) :: rest else (k', v') :: dirSet rest k v

/-- `directed.get((u, v))`. -/
def dirGet (m : List (((Int × Int) × (Int × Int)) × Nat))
    (k : (Int × Int) × (Int × Int)) : Option Nat :=
  match m with
  | [] => none
  | (k', v) :: rest => if k' = k then some v else dirGet rest k

/-- Build `out_map` and `dir_to_micro` for every face from all micro-edges
(the face keeps its left side: the reversed direction is registered for the
right face). -/
def buildDirMaps (micros : List MicroEdge) (nfaces : Nat) :
    List (List ((Int × Int) × List (Int × Int))) ×
    List (List (((Int × Int) × (Int × Int)) × Nat)) :=
  (micros.enum.foldl
    (fun (st : List (List ((Int × Int) × List (Int × Int))) ×
               List (List (((Int × Int) × (Int × Int)) × Nat))) mi =>
      let me := mi.2
      let mid := mi.1
      let st1 :=
        if 0 ≤ me.left_face ∧ me.left_face < (nfaces : Int) then
          let f := me.left_face.toNat
          (st.1.set f (ptsetAdd (st.1.getD f []) me.p0 me.p1),
           st.2.set f (dirSet (st.2.getD f []) (me.p0, me.p1) mid))
        else st
      if 0 ≤ me.right_face ∧ me.right_face < (nfaces : Int) then
        let f := me.right_face.toNat
        (st1.1.set f (ptsetAdd (st1.1.getD f []) me.p1 me.p0),
         st1.2.set f (dirSet (st1.2.getD f []) (me.p1, me.p0) mid))
      else st1)
    (List.replicate nfaces [], List.replicate nfaces []))

/-- `turn_left(dx, dy)` (y grows downward). -/
def turn_left (d : Int × Int) : Int × Int := (d.2, -d.1)

/-- `turn_right(dx, dy)`. -/
def turn_right (d : Int × Int) : Int × Int := (-d.2, d.1)

/-- The `while True:` walk of the boundary trace.  `fuel` bounds the number
of steps; exhaustion (which corresponds to a non-terminating Python walk)
is reported as a construction error.  Returns the accumulated dual-edge
sequence and the updated visited set. -/
def traceWalk (directed : List (((Int × Int) × (Int × Int)) × Nat))
    (micros : List MicroEdge) (mtd : List (MicroEdge × Int))
    (out_m : List ((Int × Int) × List (Int × Int)))
    (start : (Int × Int) × (Int × Int)) :
    Nat → (Int × Int) → (Int × Int) → List ((Int × Int) × (Int × Int)) → List Int →
    Except String (List Int × List ((Int × Int) × (Int × Int)))
  | 0, _, _, _, _ => .error "boundary trace ran out of fuel"
  | fuel + 1, cur_u, cur_v, visited, seq_edges =>
    let visited1 := if (cur_u, cur_v) ∈ visited then visited else visited ++ [(cur_u, cur_v)]
    match dirGet directed (cur_u, cur_v) with
    | none => .error "boundary trace lost a directed edge"
    | some mid =>
      match mtdGet mtd (getMicro micros mid) with
      | none => .error "missing micro->dual mapping for boundary edge"
      | some deid =>
        let seq2 := seq_edges ++ [deid]
        let dx := cur_v.1 - cur_u.1
        let dy := cur_v.2 - cur_u.2
        let candidates := [turn_left (dx, dy), (dx, dy), turn_right (dx, dy), (-dx, -dy)]
        let outs := ptsetGet out_m cur_v
        match candidates.find? (fun nd => decide ((cur_v.1 + nd.1, cur_v.2 + nd.2) ∈ outs)) with
        | none => .error "boundary trace hit a dead end"
        | some nd =>
          let nxt := (cur_v.1 + nd.1, cur_v.2 + nd.2)
          if (cur_v, nxt) = start then .ok (seq2, visited1)
          else traceWalk directed micros mtd out_m start fuel cur_v nxt visited1 seq2

/-- Cycle-aware compression of consecutive duplicate dual-edge ids. -/
def compressCycle (seq : List Int) : List Int :=
  let c := seq.foldl
    (fun acc e =>
      match acc.getLast? with
      | some lastE => if lastE = e then acc else acc ++ [e]
      | none => [e])
    []
  if 1 < c.length ∧ c.headD 0 = (c.getLast?).getD 0 then c.dropLast else c

/-- The `for (u, v) in directed.keys():` loop collecting oriented cycles. -/
def traceCycles (directed : List (((Int × Int) × (Int × Int)) × Nat))
    (micros : List MicroEdge) (mtd : List (MicroEdge × Int))
    (out_m : List ((Int × Int) × List (Int × Int))) :
    List ((Int × Int) × (Int × Int)) → List ((Int × Int) × (Int × Int)) →
    List (List Int) → Except String (List (List Int))
  | [], _, cycles => .ok cycles
  | k :: rest, visited, cycles =>
    if k ∈ visited then traceCycles directed micros mtd out_m rest visited cycles
    else
      match traceWalk directed micros mtd out_m k (2 * directed.length + 2)
          k.1 k.2 visited [] with
      | .error m => .error m
      | .ok res =>
        traceCycles directed micros mtd out_m rest res.2 (cycles ++ [compressCycle res.1])

/-- Convert a dual-edge cycle into the half-edge rotation of face `fid`. -/
def rotFromEdgeOrder (edges : List DualEdge) (fid : Nat) :
    List Int → Except String (List Int)
  | [] => .ok []
  | deid :: rest =>
    match pyGet edges deid with
    | none => .error "IndexError"
    | some e =>
      let pick : Except String Int :=
        if e.u = (fid : Int) then .ok e.he_u
        else if e.v = (fid : Int) then .ok e.he_v
        else .error "dual edge not incident to traced face"
      match pick with
      | .error m => .error m
      | .ok he =>
        match rotFromEdgeOrder edges fid rest with
        | .error m => .error m
        | .ok l => .ok (he :: l)

/-- Per-face block of the trace: one cycle or a construction error. -/
def traceFace (edges : List DualEdge) (micros : List MicroEdge)
    (mtd : List (MicroEdge × Int))
    (out_m : List ((Int × Int) × List (Int × Int)))
    (directed : List (((Int × Int) × (Int × Int)) × Nat)) (fid : Nat) :
    Except String (List Int) :=
  if directed.length = 0 then .ok []
  else
    match traceCycles directed micros mtd out_m (directed.map Prod.fst) [] [] with
    | .error m => .error m
    | .ok cycles =>
      if cycles.length ≠ 1 then
        .error ("Face " ++ toString fid ++ " has " ++ toString cycles.length ++
          " boundary cycles; only simply connected faces are supported for now.")
      else rotFromEdgeOrder edges fid (cycles.headD [])

/-- Run the trace for faces `fid, fid+1, …`, installing each rotation. -/
def traceAllFaces (edges : List DualEdge) (micros : List MicroEdge)
    (mtd : List (MicroEdge × Int))
    (om : List (List ((Int × Int) × List (Int × Int))))
    (dm : List (List (((Int × Int) × (Int × Int)) × Nat))) :
    Nat → Nat → List (List Int) → Except String (List (List Int))
  | _, 0, rotation => .ok rotation
  | fid, remaining + 1, rotation =>
    match traceFace edges micros mtd (om.getD fid []) (dm.getD fid []) fid with
    | .error m => .error m
    | .ok rot =>
      traceAllFaces edges micros mtd om dm (fid + 1) remaining (rotation.set fid rot)

/-- Trivial rotation of a green vertex, in edge-encounter order. -/
def greenRotation (edges : List DualEdge) (vid : Int) : List Int :=
  edges.foldl
    (fun inc e =>
      if e.u = vid then inc ++ [e.he_u]
      else if e.v = vid then inc ++ [e.he_v]
      else inc)
    []

/-- The face-vertex arena built from the visible-face list. -/
def faceVertices (faces : List VisibleFace) : List DualVertex :=
  faces.map fun f =>
    { id := f.id, kind := "face", color := some f.color, parent := some f.id,
      centroid := f.centroid }

/-- The construction state after pair-edge building, before green ports. -/
def initialBuildState (faces : List VisibleFace) (ms : MicroState) : BuildState :=
  let pe := buildPairEdges ms.micros (sortPairs ms.pairMap) ([], [], [])
  { vertices := faceVertices faces,
    rotation := List.replicate (faceVertices faces).length [],
    edges := pe.1, halfedges := pe.2.1, micros := ms.micros, mtd := pe.2.2 }

/-- `build_embedded_dual_from_raster(faces, comp, image_size, green_sides)`. -/
def build_embedded_dual_from_raster (faces : List VisibleFace)
    (comp : List (List Int)) (image_size : Int × Int) (green_sides : Bool) :
    Except String EmbeddedDualGraph :=
  let w := image_size.1
  let h := image_size.2
  if h ≠ (comp.length : Int) ∨ (0 < h ∧ w ≠ ((comp.headD []).length : Int)) then
    .error "comp size and image_size disagree"
  else
    match collectMicros comp w.toNat h.toNat with
    | .error m => .error m
    | .ok ms =>
      match (if green_sides then greenPorts comp w h (initialBuildState faces ms)
             else .ok (initialBuildState faces ms)) with
      | .error m => .error m
      | .ok st1 =>
        let maps := buildDirMaps st1.micros (faceVertices faces).length
        match traceAllFaces st1.edges st1.micros st1.mtd maps.1 maps.2 0
            (faceVertices faces).length st1.rotation with
        | .error m => .error m
        | .ok rotFaces =>
          let rotAll := (List.range (st1.vertices.length - (faceVertices faces).length)).foldl
            (fun (r : List (List Int)) k =>
              let vid := (faceVertices faces).length + k
              r.set vid (greenRotation st1.edges (vid : Int)))
            rotFaces
          let g : EmbeddedDualGraph :=
            { vertices := st1.vertices, edges := st1.edges,
              halfedges := st1.halfedges, rotation := rotAll }
          if validate g then .ok g else .error "ValidationError"

/-! ### Observation helpers and concrete instances used by the claims -/

/-- Number of vertices of a given kind. -/
def countKind (g : EmbeddedDualGraph) (k : String) : Nat :=
  (g.vertices.filter (fun v => v.kind == k)).length

def resCountKind (r : Except String EmbeddedDualGraph) (k : String) : Nat :=
  match r with
  | .ok g => countKind g k
  | .error _ => 0

/-- Number of boundary dual edges whose endpoints are faces 0 and 1. -/
def boundary01 (g : EmbeddedDualGraph) : Nat :=
  (g.edges.filter (fun e => e.kind == "boundary" &&
    ((e.u == 0 && e.v == 1) || (e.u == 1 && e.v == 0)))).length

def resBoundary01 (r : Except String EmbeddedDualGraph) : Nat :=
  match r with
  | .ok g => boundary01 g
  | .error _ => 0

def resValid (r : Except String EmbeddedDualGraph) : Bool :=
  match r with
  | .ok g => validate g
  | .error _ => false

/-- Degree of vertex `v`: length of its rotation list. -/
def degree (g : EmbeddedDualGraph) (v : Nat) : Nat :=
  ((g.rotation.get? v).getD []).length

/-- The §8 scenario input: 2×2 grid `[[0,0],[1,1]]`, two visible faces. -/
def c2faces : List VisibleFace := [⟨0, 0, none⟩, ⟨1, 1, none⟩]

def c2comp : List (List Int) := [[0, 0], [1, 1]]

def c2res : Except String EmbeddedDualGraph :=
  build_embedded_dual_from_raster c2faces c2comp (2, 2) true

/-- A face with a hole: face 1 is a ring of pixels around the centre pixel
of face 0. -/
def c8faces : List VisibleFace := [⟨0, 0, none⟩, ⟨1, 1, none⟩]

def c8comp : List (List Int) := [[1, 1, 1], [1, 0, 1], [1, 1, 1]]

def c8res : Except String EmbeddedDualGraph :=
  build_embedded_dual_from_raster c8faces c8comp (3, 3) true

/-- Two face vertices joined by one boundary edge; passes `validate`. -/
def exGraph1 : EmbeddedDualGraph :=
  { vertices := [{ id := 0, kind := "face", color := some 0, parent := some 0 },
                 { id := 1, kind := "face", color := some 1, parent := some 1 }],
    edges := [⟨0, 0, 1, "boundary", 0, 1⟩],
    halfedges := [⟨0, 0, 0⟩, ⟨1, 0, 1⟩],
    rotation := [[0], [1]] }

/-- Two face vertices joined by two parallel boundary edges; passes
`validate` and satisfies the well-formedness side conditions. -/
def exGraph2 : EmbeddedDualGraph :=
  { vertices := [{ id := 0, kind := "face", color := some 0, parent := some 0 },
                 { id := 1, kind := "face", color := some 1, parent := some 1 }],
    edges := [⟨0, 0, 1, "boundary", 0, 1⟩, ⟨1, 0, 1, "boundary", 2, 3⟩],
    halfedges := [⟨0, 0, 0⟩, ⟨1, 0, 1⟩, ⟨2, 1, 0⟩, ⟨3, 1, 1⟩],
    rotation := [[0, 2], [1, 3]] }

/-- Degenerate graph that still passes `validate`: half-edge 0 is listed
twice in the rotation of vertex 0. -/
def exGraphDup : EmbeddedDualGraph :=
  { vertices := [{ id := 0, kind := "face", color := some 0, parent := some 0 },
                 { id := 1, kind := "face", color := some 1, parent := some 1 }],
    edges := [⟨0, 0, 1, "boundary", 0, 1⟩],
    halfedges := [⟨0, 0, 0⟩, ⟨1, 0, 1⟩],
    rotation := [[0, 0], [1]] }

/-- A self-loop at vertex 0 (allowed by `validate`). -/
def exGraphLoop : EmbeddedDualGraph :=
  { vertices := [{ id := 0, kind := "face", color := some 0, parent := some 0 }],
    edges := [⟨0, 0, 0, "boundary", 0, 1⟩],
    halfedges := [⟨0, 0, 0⟩, ⟨1, 0, 0⟩],
    rotation := [[0, 1]] }

/-- Snapshot whose `id` fields disagree with arena positions: vertex ids 5
and 7, half-edge ids 99/98/97/96, and the two edges carry each other's
list index as `id` (with `edge` back-references following the `id`s). -/
def c9snapshot : PyVal :=
  .vdict
    [("vertices", .vlist
        [.vdict [("id", .vint 5), ("kind", .vstr "face"), ("color", .vint 0),
                 ("parent", .vint 5), ("side", .vnone), ("centroid", .vnone)],
         .vdict [("id", .vint 7), ("kind", .vstr "face"), ("color", .vint 1),
                 ("parent", .vint 7), ("side", .vnone), ("centroid", .vnone)]]),
     ("edges", .vlist
        [.vdict [("id", .vint 1), ("u", .vint 0), ("v", .vint 1),
                 ("kind", .vstr "boundary"), ("he_u", .vint 0), ("he_v", .vint 1)],
         .vdict [("id", .vint 0), ("u", .vint 0), ("v", .vint 1),
                 ("kind", .vstr "boundary"), ("he_u", .vint 2), ("he_v", .vint 3)]]),
     ("halfedges", .vlist
        [.vdict [("id", .vint 99), ("edge", .vint 1), ("origin", .vint 0)],
         .vdict [("id", .vint 98), ("edge", .vint 1), ("origin", .vint 1)],
         .vdict [("id", .vint 97), ("edge", .vint 0), ("origin", .vint 0)],
         .vdict [("id", .vint 96), ("edge", .vint 0), ("origin", .vint 1)]]),
     ("rotation", .vlist
        [.vlist [.vint 0, .vint 2], .vlist [.vint 1, .vint 3]])]

/-- The graph `from_json_dict` builds from `c9snapshot`. -/
def c9graph : EmbeddedDualGraph :=
  { vertices := [{ id := 5, kind := "face", color := some 0, parent := some 5 },
                 { id := 7, kind := "face", color := some 1, parent := some 7 }],
    edges := [⟨1, 0, 1, "boundary", 0, 1⟩, ⟨0, 0, 1, "boundary", 2, 3⟩],
    halfedges := [⟨99, 1, 0⟩, ⟨98, 1, 1⟩, ⟨97, 0, 0⟩, ⟨96, 0, 1⟩],
    rotation := [[0, 2], [1, 3]] }

/-! ### Propositional characterisations and well-formedness side conditions -/

/-- Propositional form of one `rotEntryOk` check. -/
def RotEntryP (hs : List HalfEdge) (vid : Nat) (he : Int) : Prop :=
  0 ≤ he ∧ he < (hs.length : Int) ∧
    ∃ hh, hs.get? he.toNat = some hh ∧ hh.origin = (vid : Int)

/-- Propositional form of the per-edge checks of `validate`. -/
def EdgeOkP (hs : List HalfEdge) (rot : List (List Int)) (n : Nat)
    (e : DualEdge) : Prop :=
  0 ≤ e.id ∧ e.id < (n : Int) ∧
  0 ≤ e.he_u ∧ e.he_u < (hs.length : Int) ∧
  0 ≤ e.he_v ∧ e.he_v < (hs.length : Int) ∧
  (∃ hu, hs.get? e.he_u.toNat = some hu ∧ hu.edge = e.id ∧ hu.origin = e.u) ∧
  (∃ hv, hs.get? e.he_v.toNat = some hv ∧ hv.edge = e.id ∧ hv.origin = e.v) ∧
  (∃ ru, pyGet rot e.u = some ru ∧ e.he_u ∈ ru) ∧
  (∃ rv, pyGet rot e.v = some rv ∧ e.he_v ∈ rv)

/-- Propositional form of `validate`. -/
def ValidP (g : EmbeddedDualGraph) : Prop :=
  g.rotation.length = g.vertices.length ∧
  (∀ i r, g.rotation.get? i = some r → ∀ he ∈ r, RotEntryP g.halfedges i he) ∧
  (∀ e ∈ g.edges, EdgeOkP g.halfedges g.rotation g.edges.length e)

/-- Well-formedness side condition: every edge's `id` equals its list
index.  Holds for every graph the raster constructor or the refinement
operations produce, but is not enforced by `validate`. -/
def IdsMatch (g : EmbeddedDualGraph) : Prop :=
  ∀ (k : Nat) (e : DualEdge), g.edges.get? k = some e → e.id = (k : Int)

/-- Well-formedness side condition: no edge uses the same half-edge for both
endpoints. -/
def NoDegenerateEdge (g : EmbeddedDualGraph) : Prop :=
  ∀ e ∈ g.edges, e.he_u ≠ e.he_v

/-- Well-formedness side condition: no rotation list repeats a half-edge. -/
def RotNodup (g : EmbeddedDualGraph) : Prop :=
  ∀ r ∈ g.rotation, r.Nodup

/-- The list index that `pyGet`/`pySet` resolve a Python index to. -/
def pyIdx {α : Type} (xs : List α) (i : Int) : Option Nat :=
  if 0 ≤ i then some i.toNat
  else if 0 ≤ i + xs.length then some (i + xs.length).toNat
  else none

/-- How one `reattach` run may change a half-edge record: `id` and `edge`
are untouched; `origin` is either kept or set to the new vertex, and once it
is the new vertex it stays so. -/
def HRel (nv : Int) (h0 h1 : HalfEdge) : Prop :=
  h1.id = h0.id ∧ h1.edge = h0.edge ∧
  (h1.origin = h0.origin ∨ h1.origin = nv) ∧ (h0.origin = nv → h1.origin = nv)

/-- How one `reattach` run may change an edge record: only the endpoints
move, each either kept or rewired to the new vertex, stickily. -/
def ERel (nv : Int) (e0 e1 : DualEdge) : Prop :=
  e1.id = e0.id ∧ e1.kind = e0.kind ∧ e1.he_u = e0.he_u ∧ e1.he_v = e0.he_v ∧
  (e1.u = e0.u ∨ e1.u = nv) ∧ (e0.u = nv → e1.u = nv) ∧
  (e1.v = e0.v ∨ e1.v = nv) ∧ (e0.v = nv → e1.v = nv)

/-- Extract the payload of an `Except` that is known to be `.ok` (used by
witnesses to name concrete intermediate values without spelling them out). -/
def exOk {α : Type} [Inhabited α] (r : Except String α) : α :=
  match r with
  | .ok a => a
  | .error _ => default

instance : Inhabited MicroState := ⟨⟨[], []⟩⟩

instance : Inhabited BuildState := ⟨⟨[], [], [], [], [], []⟩⟩

instance : Inhabited EmbeddedDualGraph := ⟨⟨[], [], [], []⟩⟩

/-! ### Lemmas about the Python-semantics helpers -/

theorem pyGet_nonneg {α : Type} (xs : List α) (i : Int) (h : 0 ≤ i) :
    pyGet xs i = xs.get? i.toNat := by
  simp [pyGet, h]

theorem pyGet_eq_some {α : Type} {xs : List α} {i : Int} {a : α}
    (h : pyGet xs i = some a) :
    (0 ≤ i ∧ xs.get? i.toNat = some a) ∨
      (i < 0 ∧ 0 ≤ i + (xs.length : Int) ∧ xs.get? (i + xs.length).toNat = some a) := by
  by_cases h0 : 0 ≤ i
  · rw [pyGet, if_pos h0] at h
    exact Or.inl ⟨h0, h⟩
  · rw [pyGet, if_neg h0] at h
    by_cases h1 : 0 ≤ i + (xs.length : Int)
    · rw [if_pos h1] at h
      exact Or.inr ⟨by omega, h1, h⟩
    · rw [if_neg h1] at h
      cases h

theorem pyGet_of_bounds {α : Type} {xs : List α} {i : Int}
    (h0 : 0 ≤ i) (h1 : i < (xs.length : Int)) :
    ∃ a, pyGet xs i = some a ∧ xs.get? i.toNat = some a := by
  rw [pyGet_nonneg xs i h0]
  have hlt : i.toNat < xs.length := by omega
  exact ⟨xs.get ⟨i.toNat, hlt⟩, List.get?_eq_get hlt, List.get?_eq_get hlt⟩

theorem pySet_length {α : Type} (xs : List α) (i : Int) (a : α) :
    (pySet xs i a).length = xs.length := by
  unfold pySet
  split
  · simp
  · split
    · simp
    · rfl

theorem pySet_nonneg {α : Type} (xs : List α) (i : Int) (a : α) (h : 0 ≤ i) :
    pySet xs i a = xs.set i.toNat a := by
  simp [pySet, h]

theorem pyInsert_length {α : Type} (xs : List α) (k : Nat) (a : α)
    (h : k ≤ xs.length) : (pyInsert xs k a).length = xs.length + 1 := by
  simp only [pyInsert, List.length_append, List.length_cons, List.length_take,
    List.length_drop]
  omega

theorem pyIndex_eq_none {xs : List Int} {x : Int} :
    pyIndex xs x = none ↔ x ∉ xs := by
  induction xs with
  | nil => simp [pyIndex]
  | cons y ys ih =>
    by_cases hy : y = x
    · simp [pyIndex, hy]
    · simp [pyIndex, hy, ih, Ne.symm hy]

theorem pyIndex_get {xs : List Int} {x : Int} {k : Nat}
    (h : pyIndex xs x = some k) : k < xs.length ∧ xs.get? k = some x := by
  induction xs generalizing k with
  | nil => cases h
  | cons y ys ih =>
    by_cases hy : y = x
    · rw [pyIndex, if_pos hy] at h
      injection h with h
      subst h
      exact ⟨by simp, by simp [hy]⟩
    · rw [pyIndex, if_neg hy] at h
      cases hp : pyIndex ys x with
      | none => rw [hp] at h; cases h
      | some k' =>
        rw [hp] at h
        injection h with h
        subst h
        obtain ⟨h1, h2⟩ := ih hp
        exact ⟨by simpa using h1, by simpa using h2⟩

theorem pyIndex_of_mem {xs : List Int} {x : Int} (h : x ∈ xs) :
    ∃ k, pyIndex xs x = some k := by
  cases hp : pyIndex xs x with
  | none => exact absurd h (pyIndex_eq_none.1 hp)
  | some k => exact ⟨k, rfl⟩

theorem cycle_slice_append {rot : List Int} {i j : Int}
    (hi0 : 0 ≤ i) (hi1 : i < (rot.length : Int))
    (hj0 : 0 ≤ j) (hj1 : j < (rot.length : Int)) (hij : i ≠ j) :
    cycle_slice rot i j ++ cycle_slice rot j i = rot.rotate i.toNat := by
  have hn : rot.length ≠ 0 := by
    intro h
    rw [h] at hi1
    omega
  have hmi : i.emod (rot.length : Int) = i := Int.emod_eq_of_lt hi0 hi1
  have hmj : j.emod (rot.length : Int) = j := Int.emod_eq_of_lt hj0 hj1
  have hij2 : i.toNat ≠ j.toNat := by omega
  have hiL : i.toNat < rot.length := by omega
  have hjL : j.toNat < rot.length := by omega
  rw [cycle_slice, cycle_slice, if_neg hn, if_neg hn]
  simp only [hmi, hmj]
  rw [List.rotate_eq_drop_append_take (le_of_lt hiL)]
  rcases lt_or_gt_of_ne hij2 with hlt | hgt
  · rw [if_pos hlt, if_neg (by omega : ¬ j.toNat < i.toNat)]
    have : rot.drop j.toNat = (rot.drop i.toNat).drop (j.toNat - i.toNat) := by
      rw [List.drop_drop]
      congr 1
      omega
    rw [this, ← List.append_assoc]
    congr 1
    exact List.take_append_drop _ _
  · rw [if_neg (by omega : ¬ i.toNat < j.toNat), if_pos hgt]
    rw [List.append_assoc]
    congr 1
    have : rot.take i.toNat = rot.take (j.toNat + (i.toNat - j.toNat)) := by
      congr 1
      omega
    rw [this, List.take_add]

theorem cycle_slice_ne_nil {rot : List Int} {i j : Int}
    (hi0 : 0 ≤ i) (hi1 : i < (rot.length : Int))
    (hj0 : 0 ≤ j) (hj1 : j < (rot.length : Int)) :
    cycle_slice rot i j ≠ [] := by
  have hn : rot.length ≠ 0 := by
    intro h
    rw [h] at hi1
    omega
  have hmi : i.emod (rot.length : Int) = i := Int.emod_eq_of_lt hi0 hi1
  have hmj : j.emod (rot.length : Int) = j := Int.emod_eq_of_lt hj0 hj1
  rw [cycle_slice, if_neg hn]
  simp only [hmi, hmj]
  intro hcon
  rcases lt_or_ge i.toNat j.toNat with hlt | hge
  · rw [if_pos hlt] at hcon
    have := congrArg List.length hcon
    simp only [List.length_take, List.length_drop, List.length_nil] at this
    omega
  · have : ¬ i.toNat < j.toNat := by omega
    rw [if_neg this] at hcon
    have := congrArg List.length hcon
    simp only [List.length_append, List.length_take, List.length_drop,
      List.length_nil] at this
    omega

/-! ### Characterisation of `validate` -/

theorem rotEntryOk_iff {hs : List HalfEdge} {vid : Nat} {he : Int} :
    rotEntryOk hs vid he = true ↔ RotEntryP hs vid he := by
  unfold rotEntryOk RotEntryP
  cases hpg : pyGet hs he with
  | none =>
    simp only [hpg, Bool.and_eq_true, decide_eq_true_eq]
    constructor
    · rintro ⟨⟨_, _⟩, h3⟩
      cases h3
    · rintro ⟨h1, _, hh, hg, _⟩
      rw [pyGet_nonneg _ _ h1, hg] at hpg
      cases hpg
  | some hh =>
    simp only [hpg, Bool.and_eq_true, decide_eq_true_eq]
    constructor
    · rintro ⟨⟨h1, h2⟩, h3⟩
      refine ⟨h1, h2, hh, ?_, h3⟩
      rw [pyGet_nonneg _ _ h1] at hpg
      exact hpg
    · rintro ⟨h1, h2, hh', hg, ho⟩
      rw [pyGet_nonneg _ _ h1, hg] at hpg
      injection hpg with hpg
      subst hpg
      exact ⟨⟨h1, h2⟩, ho⟩

theorem rotAllOk_iff (hs : List HalfEdge) (k : Nat) (rows : List (List Int)) :
    rotAllOk hs k rows = true ↔
      ∀ i r, rows.get? i = some r → ∀ he ∈ r, RotEntryP hs (k + i) he := by
  induction rows generalizing k with
  | nil => simp [rotAllOk]
  | cons r rest ih =>
    simp only [rotAllOk, Bool.and_eq_true, List.all_eq_true]
    constructor
    · rintro ⟨h1, h2⟩ i r' hr' he hhe
      cases i with
      | zero =>
        injection hr' with e
        subst e
        simpa using rotEntryOk_iff.1 (h1 he hhe)
      | succ n =>
        have hx := ((ih (k + 1)).1 h2) n r' (by simpa using hr') he hhe
        have : k + 1 + n = k + (n + 1) := by omega
        rwa [this] at hx
    · intro h
      refine ⟨fun he hhe => rotEntryOk_iff.2 ?_, (ih (k + 1)).2 ?_⟩
      · simpa using h 0 r rfl he hhe
      · intro n r' hr' he hhe
        have hx := h (n + 1) r' (by simpa using hr') he hhe
        have : k + (n + 1) = k + 1 + n := by omega
        rwa [this] at hx

theorem edgeOk_iff {hs : List HalfEdge} {rot : List (List Int)} {n : Nat}
    {e : DualEdge} : edgeOk hs rot n e = true ↔ EdgeOkP hs rot n e := by
  constructor
  · intro h
    simp only [edgeOk, Bool.and_eq_true, decide_eq_true_eq] at h
    obtain ⟨⟨⟨⟨⟨⟨⟨h1, h2⟩, h3⟩, h4⟩, h5⟩, h6⟩, hm1⟩, hm2⟩ := h
    split at hm1
    case h_2 => cases hm1
    case h_1 hu hv hgu hgv =>
      split at hm2
      case h_2 => cases hm2
      case h_1 ru rv hru hrv =>
        simp only [Bool.and_eq_true, decide_eq_true_eq] at hm1 hm2
        obtain ⟨⟨⟨h7, h8⟩, h9⟩, h10⟩ := hm1
        obtain ⟨h11, h12⟩ := hm2
        refine ⟨h1, h2, h3, h4, h5, h6, ⟨hu, ?_, h7, h9⟩, ⟨hv, ?_, h8, h10⟩,
          ⟨ru, hru, h11⟩, ⟨rv, hrv, h12⟩⟩
        · rw [← pyGet_nonneg _ _ h3]
          exact hgu
        · rw [← pyGet_nonneg _ _ h5]
          exact hgv
  · rintro ⟨h1, h2, h3, h4, h5, h6, ⟨hu, hgu, h7, h9⟩, ⟨hv, hgv, h8, h10⟩,
      ⟨ru, hru, h11⟩, ⟨rv, hrv, h12⟩⟩
    have hgu' : pyGet hs e.he_u = some hu := by
      rw [pyGet_nonneg _ _ h3]
      exact hgu
    have hgv' : pyGet hs e.he_v = some hv := by
      rw [pyGet_nonneg _ _ h5]
      exact hgv
    simp only [edgeOk, hgu', hgv', hru, hrv, Bool.and_eq_true, decide_eq_true_eq]
    exact ⟨⟨⟨⟨⟨⟨⟨h1, h2⟩, h3⟩, h4⟩, h5⟩, h6⟩, ⟨⟨⟨h7, h8⟩, h9⟩, h10⟩⟩, h11, h12⟩

theorem validate_iff {g : EmbeddedDualGraph} : validate g = true ↔ ValidP g := by
  unfold validate ValidP
  simp only [Bool.and_eq_true, decide_eq_true_eq, List.all_eq_true,
    rotAllOk_iff]
  constructor
  · rintro ⟨⟨h1, h2⟩, h3⟩
    refine ⟨h1, fun i r hr he hhe => ?_, fun e he => edgeOk_iff.1 (h3 e he)⟩
    simpa using h2 i r hr he hhe
  · rintro ⟨h1, h2, h3⟩
    refine ⟨⟨h1, fun i r hr he hhe => ?_⟩, fun e he => edgeOk_iff.2 (h3 e he)⟩
    simpa using h2 i r hr he hhe

theorem pySet_get?_eq {α : Type} {xs : List α} {i : Int} (a : α)
    (h0 : 0 ≤ i) (h1 : i < (xs.length : Int)) :
    (pySet xs i a).get? i.toNat = some a := by
  rw [pySet_nonneg _ _ _ h0]
  exact List.get?_set_eq_of_lt a (by omega)

theorem pySet_get?_ne {α : Type} {xs : List α} {i : Int} (a : α) {k : Nat}
    (h0 : 0 ≤ i) (hk : k ≠ i.toNat) :
    (pySet xs i a).get? k = xs.get? k := by
  rw [pySet_nonneg _ _ _ h0]
  exact List.get?_set_ne a _ (fun h => hk h.symm)

theorem pyInsert_mem {α : Type} {xs : List α} {k : Nat} {a b : α} :
    a ∈ pyInsert xs k b ↔ a ∈ xs ∨ a = b := by
  unfold pyInsert
  constructor
  · intro h
    rcases List.mem_append.1 h with h1 | h2
    · exact Or.inl (List.mem_of_mem_take h1)
    · rcases List.mem_cons.1 h2 with h3 | h4
      · exact Or.inr h3
      · exact Or.inl (List.mem_of_mem_drop h4)
  · rintro (h | rfl)
    · conv at h => rw [← List.take_append_drop k xs]
      rcases List.mem_append.1 h with h1 | h2
      · exact List.mem_append.2 (Or.inl h1)
      · exact List.mem_append.2 (Or.inr (List.mem_cons_of_mem _ h2))
    · exact List.mem_append.2 (Or.inr (List.mem_cons_self _ _))

theorem pyInsert_eq_parts {α : Type} (xs : List α) (k : Nat) (a : α) :
    pyInsert xs k a = xs.take k ++ a :: xs.drop k := rfl

/-- Monotonicity of a rotation-entry check under arena growth. -/
theorem RotEntryP_append {hs : List HalfEdge} {tl : List HalfEdge} {w : Nat}
    {he : Int} (h : RotEntryP hs w he) : RotEntryP (hs ++ tl) w he := by
  obtain ⟨h1, h2, hh, hg, ho⟩ := h
  refine ⟨h1, by simp; omega, hh, ?_, ho⟩
  rw [List.get?_append (by have := List.get?_eq_some.1 hg; omega)]
  exact hg

theorem ValidP.edge_u_bounds {g : EmbeddedDualGraph} (hv : ValidP g)
    {e : DualEdge} (he : e ∈ g.edges) :
    0 ≤ e.u ∧ e.u < (g.rotation.length : Int) ∧
      ∃ ru, g.rotation.get? e.u.toNat = some ru ∧ e.he_u ∈ ru := by
  obtain ⟨hlen, hrot, hedge⟩ := hv
  obtain ⟨_, _, _, _, _, _, ⟨hu, hgu, _, hou⟩, _, ⟨ru, hru, hmem⟩, _⟩ := hedge e he
  rcases pyGet_eq_some hru with ⟨h0, hg⟩ | ⟨hneg, _, hg⟩
  · refine ⟨h0, ?_, ru, hg, hmem⟩
    obtain ⟨hb, _⟩ := List.get?_eq_some.1 hg
    omega
  · exfalso
    obtain ⟨_, _, hh, hgh, hoh⟩ :=
      hrot (e.u + g.rotation.length).toNat ru hg e.he_u hmem
    rw [hgu] at hgh
    injection hgh with hgh
    subst hgh
    rw [hou] at hoh
    omega

theorem ValidP.edge_v_bounds {g : EmbeddedDualGraph} (hv : ValidP g)
    {e : DualEdge} (he : e ∈ g.edges) :
    0 ≤ e.v ∧ e.v < (g.rotation.length : Int) ∧
      ∃ rv, g.rotation.get? e.v.toNat = some rv ∧ e.he_v ∈ rv := by
  obtain ⟨hlen, hrot, hedge⟩ := hv
  obtain ⟨_, _, _, _, _, _, _, ⟨hv', hgv, _, hov⟩, _, ⟨rv, hrv, hmem⟩⟩ := hedge e he
  rcases pyGet_eq_some hrv with ⟨h0, hg⟩ | ⟨hneg, _, hg⟩
  · refine ⟨h0, ?_, rv, hg, hmem⟩
    obtain ⟨hb, _⟩ := List.get?_eq_some.1 hg
    omega
  · exfalso
    obtain ⟨_, _, hh, hgh, hoh⟩ :=
      hrot (e.v + g.rotation.length).toNat rv hg e.he_v hmem
    rw [hgv] at hgh
    injection hgh with hgh
    subst hgh
    rw [hov] at hoh
    omega

/-! ### `split_arc`: failure and success behaviour -/

theorem split_arc_out_of_range {g : EmbeddedDualGraph} {eid : Int}
    (h : eid < 0 ∨ (g.edges.length : Int) ≤ eid) :
    split_arc g eid = (g, .error "edge_id out of range") := by
  rw [split_arc, if_pos h]

/-- Success form of `split_arc`, spelling out the final state. -/
theorem split_arc_ok {g : EmbeddedDualGraph} {eid : Int} {e : DualEdge}
    {rotu rotv : List Int} {iu iv : Nat}
    (h0 : 0 ≤ eid) (h1 : eid < (g.edges.length : Int))
    (hpe : pyGet g.edges eid = some e)
    (hru : pyGet g.rotation e.u = some rotu)
    (hiu : pyIndex rotu e.he_u = some iu)
    (hrv : pyGet g.rotation e.v = some rotv)
    (hiv : pyIndex rotv e.he_v = some iv) :
    split_arc g eid =
      ({ vertices := g.vertices,
         edges := g.edges ++ [⟨(g.edges.length : Int), e.u, e.v, e.kind,
           (g.halfedges.length : Int), (g.halfedges.length : Int) + 1⟩],
         halfedges := g.halfedges ++
           [⟨(g.halfedges.length : Int), (g.edges.length : Int), e.u⟩,
            ⟨(g.halfedges.length : Int) + 1, (g.edges.length : Int), e.v⟩],
         rotation :=
           pySet (pySet g.rotation e.u (pyInsert rotu (iu + 1) (g.halfedges.length : Int)))
             e.v
             (pyInsert
               ((pyGet (pySet g.rotation e.u
                   (pyInsert rotu (iu + 1) (g.halfedges.length : Int))) e.v).getD [])
               (iv + 1) ((g.halfedges.length : Int) + 1)) },
       .ok (g.edges.length : Int)) := by
  have hcond : ¬ (eid < 0 ∨ (g.edges.length : Int) ≤ eid) := by omega
  simp only [split_arc, if_neg hcond, hpe, hru, hiu, hrv, hiv]

/-- Inversion: a successful `split_arc` implies every guard passed. -/
theorem split_arc_ok_inv {g g' : EmbeddedDualGraph} {eid r : Int}
    (h : split_arc g eid = (g', .ok r)) :
    0 ≤ eid ∧ eid < (g.edges.length : Int) ∧
      ∃ e rotu iu rotv iv, pyGet g.edges eid = some e ∧
        pyGet g.rotation e.u = some rotu ∧ pyIndex rotu e.he_u = some iu ∧
        pyGet g.rotation e.v = some rotv ∧ pyIndex rotv e.he_v = some iv := by
  unfold split_arc at h
  split at h
  · simp [Prod.ext_iff] at h
  · next hcond =>
    split at h
    · simp [Prod.ext_iff] at h
    · next e hpe =>
      dsimp only at h
      split at h
      · simp [Prod.ext_iff] at h
      · next rotu hru =>
        split at h
        · simp [Prod.ext_iff] at h
        · next iu hiu =>
          split at h
          · simp [Prod.ext_iff] at h
          · next rotv hrv =>
            split at h
            · simp [Prod.ext_iff] at h
            · next iv hiv =>
              exact ⟨by omega, by omega,
                e, rotu, iu, rotv, iv, hpe, hru, hiu, hrv, hiv⟩

/-- C1: on a graph that passes `validate`, calling `split_arc` with an edge
id that is out of range, or whose half-edges are absent from their endpoint
rotations (impossible for a validated graph, by invariant 4), fails with an
error and returns the graph exactly as it was: no arena or rotation list is
touched. -/
theorem claim_C1 (g : EmbeddedDualGraph) (eid : Int)
    (hval : validate g = true)
    (hbad : eid < 0 ∨ (g.edges.length : Int) ≤ eid ∨
      (0 ≤ eid ∧ eid < (g.edges.length : Int) ∧
        ∃ e, pyGet g.edges eid = some e ∧
          (e.he_u ∉ ((pyGet g.rotation e.u).getD []) ∨
           e.he_v ∉ ((pyGet g.rotation e.v).getD [])))) :
    ∃ msg, split_arc g eid = (g, .error msg) := by
  rcases hbad with h | h | ⟨h0, h1, e, hpe, hbad2⟩
  · exact ⟨_, split_arc_out_of_range (Or.inl h)⟩
  · exact ⟨_, split_arc_out_of_range (Or.inr h)⟩
  · exfalso
    have hv := validate_iff.1 hval
    have hmem : e ∈ g.edges := by
      rcases pyGet_eq_some hpe with ⟨_, hg⟩ | ⟨hneg, _, _⟩
      · exact List.get?_mem hg
      · omega
    obtain ⟨hu0, hu1, ru, hru, humem⟩ := hv.edge_u_bounds hmem
    obtain ⟨hv0, hv1, rv, hrv, hvmem⟩ := hv.edge_v_bounds hmem
    rcases hbad2 with hb | hb
    · rw [pyGet_nonneg _ _ hu0, hru] at hb
      exact hb humem
    · rw [pyGet_nonneg _ _ hv0, hrv] at hb
      exact hb hvmem

theorem claim_C1_witness :
    ∃ msg, split_arc exGraph1 5 = (exGraph1, .error msg) :=
  claim_C1 exGraph1 5 (by decide) (Or.inr (Or.inl (by decide)))

/-- C7: `vertex_split` fails, leaving the graph untouched, whenever the
vertex id is out of range, the vertex is not a face, its degree is below 2,
`i` or `j` is outside `[0, degree)`, or `i = j`. -/
theorem claim_C7 (g : EmbeddedDualGraph) (v i j : Int)
    (hbad : v < 0 ∨ (g.vertices.length : Int) ≤ v ∨
      (∃ vv, pyGet g.vertices v = some vv ∧ vv.kind ≠ "face") ∨
      (∃ rot, pyGet g.rotation v = some rot ∧ rot.length < 2) ∨
      (∃ rot, pyGet g.rotation v = some rot ∧
        ¬ (0 ≤ i ∧ i < (rot.length : Int) ∧ 0 ≤ j ∧ j < (rot.length : Int))) ∨
      i = j) :
    ∃ msg, vertex_split g v i j = (g, .error msg) := by
  unfold vertex_split
  split
  · exact ⟨_, rfl⟩
  next hout =>
    split
    · exact ⟨_, rfl⟩
    next vv hpv =>
      split
      · exact ⟨_, rfl⟩
      next hkind =>
        split
        · exact ⟨_, rfl⟩
        next rot hrot =>
          split
          · exact ⟨_, rfl⟩
          next hlen2 =>
            split
            · exact ⟨_, rfl⟩
            next hrange =>
              split
              · exact ⟨_, rfl⟩
              next hij =>
                exfalso
                have hface : vv.kind = "face" := not_ne_iff.1 hkind
                rcases hbad with h | h | ⟨vv', hpv', hk⟩ | ⟨rot', hrot', hl⟩ |
                    ⟨rot', hrot', hr⟩ | h
                · exact hout (Or.inl h)
                · exact hout (Or.inr h)
                · rw [hpv] at hpv'
                  injection hpv' with hpv'
                  subst hpv'
                  exact hk hface
                · rw [hrot] at hrot'
                  injection hrot' with hrot'
                  subst hrot'
                  exact hlen2 hl
                · rw [hrot] at hrot'
                  injection hrot' with hrot'
                  subst hrot'
                  exact hrange hr
                · exact hij h

theorem claim_C7_witness :
    ∃ msg, vertex_split exGraph2 0 1 1 = (exGraph2, .error msg) :=
  claim_C7 exGraph2 0 1 1 (Or.inr (Or.inr (Or.inr (Or.inr (Or.inr rfl)))))

/-- `reattach` never changes the lengths of the two arenas, whether it
succeeds or fails. -/
theorem reattach_lengths {nv : Int} :
    ∀ (m : List Int) (hs : List HalfEdge) (es : List DualEdge)
      (hs' : List HalfEdge) (es' : List DualEdge) (r : Except String Unit),
      reattach nv m hs es = ((hs', es'), r) →
      hs'.length = hs.length ∧ es'.length = es.length := by
  intro m
  induction m with
  | nil =>
    intro hs es hs' es' r h
    simp only [reattach, Prod.mk.injEq] at h
    obtain ⟨⟨h1, h2⟩, _⟩ := h
    rw [← h1, ← h2]
    exact ⟨rfl, rfl⟩
  | cons he rest ih =>
    intro hs es hs' es' r h
    unfold reattach at h
    split at h
    · simp only [Prod.mk.injEq] at h
      obtain ⟨⟨h1, h2⟩, _⟩ := h
      rw [← h1, ← h2]
      exact ⟨rfl, rfl⟩
    next hh hget =>
      split at h
      · simp only [Prod.mk.injEq] at h
        obtain ⟨⟨h1, h2⟩, _⟩ := h
        rw [← h1, ← h2]
        exact ⟨pySet_length _ _ _, rfl⟩
      next e hgete =>
        split at h
        · obtain ⟨ih1, ih2⟩ := ih _ _ _ _ _ h
          rw [ih1, ih2, pySet_length, pySet_length]
          exact ⟨rfl, rfl⟩
        · split at h
          · obtain ⟨ih1, ih2⟩ := ih _ _ _ _ _ h
            rw [ih1, ih2, pySet_length, pySet_length]
            exact ⟨rfl, rfl⟩
          · simp only [Prod.mk.injEq] at h
            obtain ⟨⟨h1, h2⟩, _⟩ := h
            rw [← h1, ← h2]
            exact ⟨pySet_length _ _ _, rfl⟩

/-- Inversion: a successful `vertex_split` implies every guard passed, and
the final graph has the shape dictated by the source. -/
theorem vertex_split_ok_inv {g g' : EmbeddedDualGraph} {v i j nv ne : Int}
    (h : vertex_split g v i j = (g', .ok (nv, ne))) :
    ∃ vv rot hs1 es1,
      (0 ≤ v ∧ v < (g.vertices.length : Int)) ∧
      pyGet g.vertices v = some vv ∧ vv.kind = "face" ∧
      pyGet g.rotation v = some rot ∧ 2 ≤ rot.length ∧
      (0 ≤ i ∧ i < (rot.length : Int) ∧ 0 ≤ j ∧ j < (rot.length : Int)) ∧ i ≠ j ∧
      reattach (g.vertices.length : Int) (cycle_slice rot i j) g.halfedges g.edges
        = ((hs1, es1), .ok ()) ∧
      hs1.length = g.halfedges.length ∧ es1.length = g.edges.length ∧
      nv = (g.vertices.length : Int) ∧ ne = (es1.length : Int) ∧
      g' = { vertices := g.vertices ++
               [{ id := (g.vertices.length : Int), kind := "face", color := vv.color,
                  parent := some ((vv.parent).getD vv.id), side := none,
                  centroid := vv.centroid }],
             edges := es1 ++ [⟨(es1.length : Int), v, (g.vertices.length : Int),
               "internal", (hs1.length : Int), (hs1.length : Int) + 1⟩],
             halfedges := hs1 ++
               [⟨(hs1.length : Int), (es1.length : Int), v⟩,
                ⟨(hs1.length : Int) + 1, (es1.length : Int), (g.vertices.length : Int)⟩],
             rotation :=
               pySet (pySet (g.rotation ++ [[]]) v
                   (cycle_slice rot j i ++ [(hs1.length : Int)]))
                 (g.vertices.length : Int)
                 (cycle_slice rot i j ++ [(hs1.length : Int) + 1]) } := by
  unfold vertex_split at h
  split at h
  · simp [Prod.ext_iff] at h
  next hout =>
    split at h
    · simp [Prod.ext_iff] at h
    next vv hpv =>
      split at h
      · simp [Prod.ext_iff] at h
      next hkind =>
        split at h
        · simp [Prod.ext_iff] at h
        next rot hrot =>
          split at h
          · simp [Prod.ext_iff] at h
          next hlen2 =>
            split at h
            · simp [Prod.ext_iff] at h
            next hrange =>
              split at h
              · simp [Prod.ext_iff] at h
              next hij =>
                dsimp only at h
                split at h
                · simp [Prod.ext_iff] at h
                next hne0 =>
                  split at h
                  next hs1 es1 msg hre =>
                    simp [Prod.ext_iff] at h
                  next hs1 es1 u0 hre =>
                    simp only [Prod.mk.injEq, Except.ok.injEq] at h
                    obtain ⟨hg', hnv, hne'⟩ := h
                    obtain ⟨hl1, hl2⟩ := reattach_lengths _ _ _ _ _ _ hre
                    refine ⟨vv, rot, hs1, es1, ⟨by omega, by omega⟩, hpv,
                      not_ne_iff.1 hkind, hrot, by omega, not_not.1 hrange,
                      hij, hre, hl1, hl2, hnv.symm, hne'.symm, hg'.symm⟩

/-- C10: successful refinement operations allocate append-only, predictable
ids: `split_arc` returns the prior edge count and grows the edge arena by 1
and the half-edge arena by 2; `vertex_split` returns the prior vertex and
edge counts and grows the arenas by 1/1/2; nothing is ever removed, so
every pre-existing id remains a valid index. -/
theorem claim_C10 :
    (∀ (g g' : EmbeddedDualGraph) (eid r : Int), split_arc g eid = (g', .ok r) →
      r = (g.edges.length : Int) ∧
      g'.edges.length = g.edges.length + 1 ∧
      g'.halfedges.length = g.halfedges.length + 2 ∧
      g'.vertices.length = g.vertices.length ∧
      (∀ k : Nat, k < g.edges.length → (g'.edges.get? k).isSome) ∧
      (∀ k : Nat, k < g.halfedges.length → (g'.halfedges.get? k).isSome)) ∧
    (∀ (g g' : EmbeddedDualGraph) (v i j nv ne : Int),
      vertex_split g v i j = (g', .ok (nv, ne)) →
      nv = (g.vertices.length : Int) ∧ ne = (g.edges.length : Int) ∧
      g'.vertices.length = g.vertices.length + 1 ∧
      g'.edges.length = g.edges.length + 1 ∧
      g'.halfedges.length = g.halfedges.length + 2 ∧
      (∀ k : Nat, k < g.vertices.length → (g'.vertices.get? k).isSome) ∧
      (∀ k : Nat, k < g.edges.length → (g'.edges.get? k).isSome) ∧
      (∀ k : Nat, k < g.halfedges.length → (g'.halfedges.get? k).isSome)) := by
  constructor
  · intro g g' eid r h
    obtain ⟨h0, h1, e, rotu, iu, rotv, iv, hpe, hru, hiu, hrv, hiv⟩ :=
      split_arc_ok_inv h
    rw [split_arc_ok h0 h1 hpe hru hiu hrv hiv] at h
    simp only [Prod.mk.injEq, Except.ok.injEq] at h
    obtain ⟨hg', hr⟩ := h
    subst hg'
    refine ⟨hr.symm, by simp, by simp, by simp, ?_, ?_⟩
    · intro k hk
      rw [Option.isSome_iff_ne_none]
      intro hn
      rw [List.get?_eq_none] at hn
      simp at hn
      omega
    · intro k hk
      rw [Option.isSome_iff_ne_none]
      intro hn
      rw [List.get?_eq_none] at hn
      simp at hn
      omega
  · intro g g' v i j nv ne h
    obtain ⟨vv, rot, hs1, es1, _, _, _, _, _, _, _, _, hl1, hl2, hnv, hne', hg'⟩ :=
      vertex_split_ok_inv h
    subst hg'
    refine ⟨hnv, by rw [hne', hl2], by simp, by simp [hl2], by simp [hl1], ?_, ?_, ?_⟩
    · intro k hk
      rw [Option.isSome_iff_ne_none]
      intro hn
      rw [List.get?_eq_none] at hn
      simp at hn
      omega
    · intro k hk
      rw [Option.isSome_iff_ne_none]
      intro hn
      rw [List.get?_eq_none] at hn
      simp at hn
      omega
    · intro k hk
      rw [Option.isSome_iff_ne_none]
      intro hn
      rw [List.get?_eq_none] at hn
      simp at hn
      omega

theorem claim_C10_witness :
    ((split_arc exGraph1 0).2 = .ok 1 ∧
      (vertex_split exGraph2 0 0 1).2 = .ok (2, 2)) ∧
    (split_arc exGraph1 0).1.edges.length = 2 ∧
    (vertex_split exGraph2 0 0 1).1.vertices.length = 3 := by
  have h1 := claim_C10.1 exGraph1 (split_arc exGraph1 0).1 0 1 (by rfl)
  have h2 := claim_C10.2 exGraph2 (vertex_split exGraph2 0 0 1).1 0 0 1 2 2 (by rfl)
  exact ⟨⟨by rfl, by rfl⟩, h1.2.1, h2.2.2.1⟩

/-- C5 counterexample: on the validated self-loop graph, `split_arc`
succeeds but the degree of the (shared) endpoint grows by 2, not by 1, and
the new `he_v` half-edge (id 3) is not the cyclic successor of the original
`he_v` (id 1): the rotation becomes `[0, 2, 3, 1]`. -/
theorem claim_C5_counterexample :
    validate exGraphLoop = true ∧
    pyGet exGraphLoop.edges 0 =
      some ⟨0, 0, 0, "boundary", 0, 1⟩ ∧
    (0 : Int) ∈ ((pyGet exGraphLoop.rotation 0).getD []) ∧
    (1 : Int) ∈ ((pyGet exGraphLoop.rotation 0).getD []) ∧
    (split_arc exGraphLoop 0).2 = .ok 1 ∧
    degree (split_arc exGraphLoop 0).1 0 = degree exGraphLoop 0 + 2 ∧
    (split_arc exGraphLoop 0).1.rotation = [[0, 2, 3, 1]] := by
  decide

/-- C5 (amended with distinct endpoints): on a validated graph, splitting an
in-range edge `e = (u, v)` with `u ≠ v` appends exactly one edge with the
same endpoints and kind and two half-edges with origins `u` and `v`, inserts
the new half-edge immediately after the original one in `rotation[u]` and
`rotation[v]` (so the relative order of all other half-edges is kept), and
raises the two degrees by exactly 1 while all other rotations are
untouched. -/
theorem claim_C5 (g : EmbeddedDualGraph) (eid : Int) (e : DualEdge)
    (hval : validate g = true)
    (h0 : 0 ≤ eid) (h1 : eid < (g.edges.length : Int))
    (hpe : pyGet g.edges eid = some e)
    (huv : e.u ≠ e.v) :
    ∃ (rotu rotv : List Int) (iu iv : Nat) (g' : EmbeddedDualGraph),
      g.rotation.get? e.u.toNat = some rotu ∧
      g.rotation.get? e.v.toNat = some rotv ∧
      pyIndex rotu e.he_u = some iu ∧ pyIndex rotv e.he_v = some iv ∧
      rotu.get? iu = some e.he_u ∧ rotv.get? iv = some e.he_v ∧
      split_arc g eid = (g', .ok (g.edges.length : Int)) ∧
      g'.edges = g.edges ++ [⟨(g.edges.length : Int), e.u, e.v, e.kind,
        (g.halfedges.length : Int), (g.halfedges.length : Int) + 1⟩] ∧
      g'.halfedges = g.halfedges ++
        [⟨(g.halfedges.length : Int), (g.edges.length : Int), e.u⟩,
         ⟨(g.halfedges.length : Int) + 1, (g.edges.length : Int), e.v⟩] ∧
      g'.rotation.get? e.u.toNat =
        some (rotu.take (iu + 1) ++ (g.halfedges.length : Int) :: rotu.drop (iu + 1)) ∧
      g'.rotation.get? e.v.toNat =
        some (rotv.take (iv + 1) ++ ((g.halfedges.length : Int) + 1) :: rotv.drop (iv + 1)) ∧
      degree g' e.u.toNat = degree g e.u.toNat + 1 ∧
      degree g' e.v.toNat = degree g e.v.toNat + 1 ∧
      (∀ w : Nat, w ≠ e.u.toNat → w ≠ e.v.toNat →
        g'.rotation.get? w = g.rotation.get? w) := by
  have hv := validate_iff.1 hval
  have hmem : e ∈ g.edges := by
    rcases pyGet_eq_some hpe with ⟨_, hg⟩ | ⟨hneg, _, _⟩
    · exact List.get?_mem hg
    · omega
  obtain ⟨hu0, hu1, rotu, hrotu, humem⟩ := hv.edge_u_bounds hmem
  obtain ⟨hv0, hv1, rotv, hrotv, hvmem⟩ := hv.edge_v_bounds hmem
  obtain ⟨iu, hiu⟩ := pyIndex_of_mem humem
  obtain ⟨iv, hiv⟩ := pyIndex_of_mem hvmem
  obtain ⟨hiuL, hiuG⟩ := pyIndex_get hiu
  obtain ⟨hivL, hivG⟩ := pyIndex_get hiv
  have hpgu : pyGet g.rotation e.u = some rotu := by
    rw [pyGet_nonneg _ _ hu0]
    exact hrotu
  have hpgv : pyGet g.rotation e.v = some rotv := by
    rw [pyGet_nonneg _ _ hv0]
    exact hrotv
  have hteq : e.u.toNat ≠ e.v.toNat := by omega
  have hsp := split_arc_ok h0 h1 hpe hpgu hiu hpgv hiv
  set nh : Int := (g.halfedges.length : Int) with hnh
  set rot1 := pySet g.rotation e.u (pyInsert rotu (iu + 1) nh) with hrot1
  have hrot1v : pyGet rot1 e.v = some rotv := by
    rw [hrot1, pyGet_nonneg _ _ hv0, pySet_get?_ne _ hu0 (Ne.symm hteq)]
    exact hrotv
  have hrot2def :
      (pyGet rot1 e.v).getD [] = rotv := by
    rw [hrot1v]
    rfl
  rw [hrot2def] at hsp
  refine ⟨rotu, rotv, iu, iv, _, hrotu, hrotv, hiu, hiv, hiuG, hivG, hsp, rfl, rfl,
    ?_, ?_, ?_, ?_, ?_⟩
  · show (pySet rot1 e.v (pyInsert rotv (iv + 1) (nh + 1))).get? e.u.toNat = _
    rw [pySet_get?_ne _ hv0 hteq, hrot1, pySet_get?_eq _ hu0 (by omega)]
    rfl
  · show (pySet rot1 e.v (pyInsert rotv (iv + 1) (nh + 1))).get? e.v.toNat = _
    have hlen1 : rot1.length = g.rotation.length := by
      rw [hrot1]
      exact pySet_length _ _ _
    rw [pySet_get?_eq _ hv0 (by omega)]
    rfl
  · show (((pySet rot1 e.v (pyInsert rotv (iv + 1) (nh + 1))).get? e.u.toNat).getD []).length
      = ((g.rotation.get? e.u.toNat).getD []).length + 1
    rw [pySet_get?_ne _ hv0 hteq, hrot1, pySet_get?_eq _ hu0 (by omega), hrotu]
    show (pyInsert rotu (iu + 1) nh).length = rotu.length + 1
    exact pyInsert_length _ _ _ (by omega)
  · show (((pySet rot1 e.v (pyInsert rotv (iv + 1) (nh + 1))).get? e.v.toNat).getD []).length
      = ((g.rotation.get? e.v.toNat).getD []).length + 1
    have hlen1 : rot1.length = g.rotation.length := by
      rw [hrot1]
      exact pySet_length _ _ _
    rw [pySet_get?_eq _ hv0 (by omega), hrotv]
    show (pyInsert rotv (iv + 1) (nh + 1)).length = rotv.length + 1
    exact pyInsert_length _ _ _ (by omega)
  · intro w hwu hwv
    show (pySet rot1 e.v (pyInsert rotv (iv + 1) (nh + 1))).get? w = _
    rw [pySet_get?_ne _ hv0 hwv, hrot1, pySet_get?_ne _ hu0 hwu]

theorem claim_C5_witness :
    ∃ g' : EmbeddedDualGraph, split_arc exGraph1 0 = (g', .ok 1) ∧
      degree g' 0 = degree exGraph1 0 + 1 ∧
      degree g' 1 = degree exGraph1 1 + 1 := by
  obtain ⟨rotu, rotv, iu, iv, g', _, _, _, _, _, _, hsp, _, _, _, _, hdu, hdv, _⟩ :=
    claim_C5 exGraph1 0 ⟨0, 0, 1, "boundary", 0, 1⟩ (by decide) (by decide)
      (by decide) (by rfl) (by decide)
  exact ⟨g', hsp, hdu, hdv⟩

/-- C2 counterexample: on the 2×2 grid `[[0,0],[1,1]]` with green ports, the
constructor creates 6 green vertices (one run on top, one on bottom, and two
each on the left and right sides), not 4 as the claim states. -/
theorem claim_C2_counterexample :
    resCountKind c2res "green" = 6 ∧ resCountKind c2res "green" ≠ 4 := by
  decide

/-- C2 (amended: 6 green vertices instead of 4): the 2×2 scenario yields 2
face vertices, exactly 1 boundary dual edge between faces 0 and 1, 6 green
vertices, and a graph on which `validate` succeeds. -/
theorem claim_C2 :
    resCountKind c2res "face" = 2 ∧ resBoundary01 c2res = 1 ∧
    resCountKind c2res "green" = 6 ∧ resValid c2res = true := by
  decide

/-- C9: `validate` never reads vertex or half-edge `id` fields and checks
edge ids only for range, so a snapshot whose `id` fields disagree with the
arena positions imports successfully. -/
theorem claim_C9 :
    from_json_dict c9snapshot = .ok c9graph ∧
    validate c9graph = true ∧
    (∃ (k : Nat) (v : DualVertex), c9graph.vertices.get? k = some v ∧
      v.id ≠ (k : Int)) ∧
    (∃ (k : Nat) (h : HalfEdge), c9graph.halfedges.get? k = some h ∧
      h.id ≠ (k : Int)) ∧
    (∃ (k : Nat) (e : DualEdge), c9graph.edges.get? k = some e ∧
      e.id ≠ (k : Int) ∧ 0 ≤ e.id ∧ e.id < (c9graph.edges.length : Int)) := by
  refine ⟨by decide, by decide, ⟨0, _, rfl, by decide⟩, ⟨0, _, rfl, by decide⟩,
    ⟨0, _, rfl, by decide, by decide, by decide⟩⟩

/-- Propagation: `traceAllFaces` surfaces the first per-face error. -/
theorem traceAllFaces_error {edges : List DualEdge} {micros : List MicroEdge}
    {mtd : List (MicroEdge × Int)}
    {om : List (List ((Int × Int) × List (Int × Int)))}
    {dm : List (List (((Int × Int) × (Int × Int)) × Nat))} {msg : String} :
    ∀ (cnt start : Nat) (rotation : List (List Int)) (fid : Nat),
      start ≤ fid → fid < start + cnt →
      (∀ f, start ≤ f → f < fid →
        ∃ rot, traceFace edges micros mtd (om.getD f []) (dm.getD f []) f = .ok rot) →
      traceFace edges micros mtd (om.getD fid []) (dm.getD fid []) fid = .error msg →
      traceAllFaces edges micros mtd om dm start cnt rotation = .error msg := by
  intro cnt
  induction cnt with
  | zero =>
    intro start rotation fid h1 h2 _ _
    omega
  | succ n ih =>
    intro start rotation fid h1 h2 hprev herr
    by_cases hstart : start = fid
    · subst hstart
      unfold traceAllFaces
      rw [herr]
    · obtain ⟨rot, hrot⟩ := hprev start (le_refl _) (by omega)
      unfold traceAllFaces
      rw [hrot]
      exact ih (start + 1) _ fid (by omega) (by omega)
        (fun f hf1 hf2 => hprev f (by omega) hf2) herr

/-- The per-face hole check: a non-empty directed map whose trace yields a
cycle count other than 1 raises the `NotImplementedError` naming the face. -/
theorem traceFace_hole {edges : List DualEdge} {micros : List MicroEdge}
    {mtd : List (MicroEdge × Int)}
    {out_m : List ((Int × Int) × List (Int × Int))}
    {directed : List (((Int × Int) × (Int × Int)) × Nat)} {fid : Nat}
    {cycles : List (List Int)}
    (hdir : directed ≠ [])
    (hcyc : traceCycles directed micros mtd out_m (directed.map Prod.fst) [] []
      = .ok cycles)
    (hlen : cycles.length ≠ 1) :
    traceFace edges micros mtd out_m directed fid =
      .error ("Face " ++ toString fid ++ " has " ++ toString cycles.length ++
        " boundary cycles; only simply connected faces are supported for now.") := by
  unfold traceFace
  rw [if_neg (by simpa [List.length_eq_zero] using hdir), hcyc]
  dsimp only
  rw [if_pos hlen]

/-- C8: if construction reaches the boundary-trace stage and the trace of
some face produces more than one oriented cycle (all earlier faces tracing
cleanly), `build_embedded_dual_from_raster` fails with the construction
error naming that face and its cycle count, and no graph is returned. -/
theorem claim_C8 (faces : List VisibleFace) (comp : List (List Int))
    (w h : Int) (green_sides : Bool) (ms : MicroState) (st1 : BuildState)
    (fid : Nat) (cycles : List (List Int))
    (hsz : ¬ (h ≠ (comp.length : Int) ∨ (0 < h ∧ w ≠ ((comp.headD []).length : Int))))
    (hms : collectMicros comp w.toNat h.toNat = .ok ms)
    (hgp : (if green_sides then greenPorts comp w h (initialBuildState faces ms)
            else .ok (initialBuildState faces ms)) = .ok st1)
    (hfid : fid < faces.length)
    (hprev : ∀ f, f < fid →
      ∃ rot, traceFace st1.edges st1.micros st1.mtd
        ((buildDirMaps st1.micros faces.length).1.getD f [])
        ((buildDirMaps st1.micros faces.length).2.getD f []) f = .ok rot)
    (hdir : ((buildDirMaps st1.micros faces.length).2.getD fid []) ≠ [])
    (hcyc : traceCycles ((buildDirMaps st1.micros faces.length).2.getD fid [])
        st1.micros st1.mtd ((buildDirMaps st1.micros faces.length).1.getD fid [])
        (((buildDirMaps st1.micros faces.length).2.getD fid []).map Prod.fst) [] []
      = .ok cycles)
    (hlen : cycles.length ≠ 1) :
    build_embedded_dual_from_raster faces comp (w, h) green_sides =
      .error ("Face " ++ toString fid ++ " has " ++ toString cycles.length ++
        " boundary cycles; only simply connected faces are supported for now.") := by
  have hfv : (faceVertices faces).length = faces.length := by
    simp [faceVertices]
  unfold build_embedded_dual_from_raster
  rw [if_neg hsz]
  dsimp only
  rw [hms]
  dsimp only
  rw [hgp]
  dsimp only
  rw [hfv]
  rw [traceAllFaces_error faces.length 0 st1.rotation fid (by omega) (by omega)
    (fun f _ hf2 => hprev f hf2)
    (traceFace_hole hdir hcyc hlen)]

theorem claim_C8_witness :
    build_embedded_dual_from_raster c8faces c8comp (3, 3) true =
      .error ("Face " ++ toString 1 ++ " has " ++ toString 2 ++
        " boundary cycles; only simply connected faces are supported for now.") := by
  refine claim_C8 c8faces c8comp 3 3 true
    (exOk (collectMicros c8comp 3 3))
    (exOk (greenPorts c8comp 3 3
      (initialBuildState c8faces (exOk (collectMicros c8comp 3 3)))))
    1
    (exOk (traceCycles
      ((buildDirMaps (exOk (greenPorts c8comp 3 3
          (initialBuildState c8faces (exOk (collectMicros c8comp 3 3))))).micros 2).2.getD 1 [])
      (exOk (greenPorts c8comp 3 3
        (initialBuildState c8faces (exOk (collectMicros c8comp 3 3))))).micros
      (exOk (greenPorts c8comp 3 3
        (initialBuildState c8faces (exOk (collectMicros c8comp 3 3))))).mtd
      ((buildDirMaps (exOk (greenPorts c8comp 3 3
          (initialBuildState c8faces (exOk (collectMicros c8comp 3 3))))).micros 2).1.getD 1 [])
      (((buildDirMaps (exOk (greenPorts c8comp 3 3
          (initialBuildState c8faces (exOk (collectMicros c8comp 3 3))))).micros 2).2.getD 1 []).map
        Prod.fst) [] []))
    (by decide) (by rfl) (by rfl) (by decide) ?_ (by decide) (by rfl) (by decide)
  intro f hf
  have : f = 0 := by omega
  subst this
  exact ⟨_, rfl⟩

/-! ### Snapshot round trip -/

theorem vertexFromPy_toPy (v : DualVertex) :
    vertexFromPy (vertexToPy v) = .ok v := by
  rcases v with ⟨vid, kind, color, parent, side, centroid⟩
  cases color <;> cases parent <;> cases side <;> cases centroid <;> rfl

theorem edgeFromPy_toPy (e : DualEdge) : edgeFromPy (edgeToPy e) = .ok e := by
  rcases e with ⟨eid, u, v, kind, he_u, he_v⟩
  rfl

theorem halfedgeFromPy_toPy (h : HalfEdge) :
    halfedgeFromPy (halfedgeToPy h) = .ok h := by
  rcases h with ⟨hid, e, o⟩
  rfl

theorem parseVertices_map (vs : List DualVertex) :
    parseVertices (vs.map vertexToPy) = .ok vs := by
  induction vs with
  | nil => rfl
  | cons v rest ih => simp [parseVertices, vertexFromPy_toPy, ih]

theorem parseEdges_map (es : List DualEdge) :
    parseEdges (es.map edgeToPy) = .ok es := by
  induction es with
  | nil => rfl
  | cons e rest ih => simp [parseEdges, edgeFromPy_toPy, ih]

theorem parseHalfEdges_map (hs : List HalfEdge) :
    parseHalfEdges (hs.map halfedgeToPy) = .ok hs := by
  induction hs with
  | nil => rfl
  | cons h rest ih => simp [parseHalfEdges, halfedgeFromPy_toPy, ih]

theorem intList_map (r : List Int) : intList (r.map PyVal.vint) = .ok r := by
  induction r with
  | nil => rfl
  | cons n rest ih => simp [intList, asInt, ih]

theorem parseRotation_map (rot : List (List Int)) :
    parseRotation (rot.map fun r => PyVal.vlist (r.map PyVal.vint)) = .ok rot := by
  induction rot with
  | nil => rfl
  | cons r rest ih => simp [parseRotation, intList_map, ih]

/-- C4: importing the export of a validated graph returns the graph itself,
field for field. -/
theorem claim_C4 (g : EmbeddedDualGraph) (hval : validate g = true) :
    from_json_dict (to_json_dict g) = .ok g := by
  have hstep : from_json_dict (to_json_dict g) =
      (match parseVertices (g.vertices.map vertexToPy) with
       | .error m => .error m
       | .ok vertices =>
         match parseEdges (g.edges.map edgeToPy) with
         | .error m => .error m
         | .ok edges =>
           match parseHalfEdges (g.halfedges.map halfedgeToPy) with
           | .error m => .error m
           | .ok halfedges =>
             match parseRotation (g.rotation.map fun r => PyVal.vlist (r.map PyVal.vint)) with
             | .error m => .error m
             | .ok rot =>
               let g2 : EmbeddedDualGraph :=
                 { vertices := vertices, edges := edges,
                   halfedges := halfedges, rotation := rot }
               if validate g2 then .ok g2 else .error "ValidationError") := rfl
  have hcond : validate { vertices := g.vertices,
                          edges := g.edges,
                          halfedges := g.halfedges,
                          rotation := g.rotation } = true := hval
  rw [hstep, parseVertices_map, parseEdges_map, parseHalfEdges_map, parseRotation_map]
  simp only []
  rw [if_pos hcond]

theorem claim_C4_witness :
    validate exGraph2 = true ∧
    from_json_dict (to_json_dict exGraph2) = .ok exGraph2 :=
  ⟨by decide, claim_C4 exGraph2 (by decide)⟩

/-! ### Pointwise behaviour of the reattachment loop -/

theorem get?_isSome_of_lt {α : Type} {xs : List α} {k : Nat}
    (h : k < xs.length) : ∃ a, xs.get? k = some a :=
  ⟨xs.get ⟨k, h⟩, List.get?_eq_get h⟩

theorem pyGet_eq_idx {α : Type} (xs : List α) (i : Int) :
    pyGet xs i = match pyIdx xs i with
      | some k => xs.get? k
      | none => none := by
  unfold pyGet pyIdx
  split
  · rfl
  · split
    · rfl
    · rfl

theorem pyIdx_length_congr {α β : Type} {xs : List α} {ys : List β} (i : Int)
    (h : xs.length = ys.length) : pyIdx xs i = pyIdx ys i := by
  unfold pyIdx
  rw [h]

theorem pySet_get?_idx {α : Type} (xs : List α) (i : Int) (a : α) (k : Nat) :
    (pySet xs i a).get? k =
      if pyIdx xs i = some k then Option.map (fun _ => a) (xs.get? k)
      else xs.get? k := by
  unfold pySet pyIdx
  split
  next h0 =>
    rw [List.get?_set]
    by_cases hk : i.toNat = k
    · simp [hk]
    · simp [hk, Option.some.injEq, hk]
  next h0 =>
    split
    next h1 =>
      rw [List.get?_set]
      by_cases hk : (i + xs.length).toNat = k
      · simp [hk]
      · simp [hk, Option.some.injEq]
    next h1 => simp

theorem HRel.hrefl {nv : Int} (h : HalfEdge) : HRel nv h h :=
  ⟨rfl, rfl, Or.inl rfl, fun x => x⟩

theorem HRel.htrans {nv : Int} {a b c : HalfEdge} (h1 : HRel nv a b)
    (h2 : HRel nv b c) : HRel nv a c := by
  obtain ⟨i1, e1, o1, s1⟩ := h1
  obtain ⟨i2, e2, o2, s2⟩ := h2
  refine ⟨i2.trans i1, e2.trans e1, ?_, fun h => s2 (s1 h)⟩
  rcases o2 with o2 | o2
  · rw [o2]
    exact o1
  · exact Or.inr o2

theorem ERel.erefl {nv : Int} (e : DualEdge) : ERel nv e e :=
  ⟨rfl, rfl, rfl, rfl, Or.inl rfl, fun x => x, Or.inl rfl, fun x => x⟩

theorem ERel.etrans {nv : Int} {a b c : DualEdge} (h1 : ERel nv a b)
    (h2 : ERel nv b c) : ERel nv a c := by
  obtain ⟨i1, k1, hu1, hv1, u1, us1, v1, vs1⟩ := h1
  obtain ⟨i2, k2, hu2, hv2, u2, us2, v2, vs2⟩ := h2
  refine ⟨i2.trans i1, k2.trans k1, hu2.trans hu1, hv2.trans hv1, ?_,
    fun h => us2 (us1 h), ?_, fun h => vs2 (vs1 h)⟩
  · rcases u2 with u2 | u2
    · rw [u2]
      exact u1
    · exact Or.inr u2
  · rcases v2 with v2 | v2
    · rw [v2]
      exact v1
    · exact Or.inr v2

/-- One `pySet` of an origin-update relates pointwise by `HRel`. -/
theorem pySet_hrel {nv : Int} {hs : List HalfEdge} {he : Int} {h : HalfEdge}
    (hget : pyGet hs he = some h) :
    ∀ (k : Nat) (x : HalfEdge), hs.get? k = some x →
      ∃ x', (pySet hs he { h with origin := nv }).get? k = some x' ∧ HRel nv x x' := by
  intro k x hx
  rw [pySet_get?_idx]
  split
  next hidx =>
    rw [pyGet_eq_idx, hidx] at hget
    change hs.get? k = some h at hget
    rw [hx] at hget
    injection hget with hget
    subst hget
    rw [hx]
    exact ⟨_, rfl, rfl, rfl, Or.inr rfl, fun _ => rfl⟩
  next hidx => exact ⟨x, hx, HRel.hrefl x⟩

/-- One `pySet` of an endpoint-rewire relates pointwise by `ERel`. -/
theorem pySet_erel_u {nv : Int} {es : List DualEdge} {d : Int} {e : DualEdge}
    (hget : pyGet es d = some e) :
    ∀ (k : Nat) (x : DualEdge), es.get? k = some x →
      ∃ x', (pySet es d { e with u := nv }).get? k = some x' ∧ ERel nv x x' := by
  intro k x hx
  rw [pySet_get?_idx]
  split
  next hidx =>
    rw [pyGet_eq_idx, hidx] at hget
    change es.get? k = some e at hget
    rw [hx] at hget
    injection hget with hget
    subst hget
    rw [hx]
    exact ⟨_, rfl, rfl, rfl, rfl, rfl, Or.inr rfl, fun _ => rfl, Or.inl rfl, fun h => h⟩
  next hidx => exact ⟨x, hx, ERel.erefl x⟩

theorem pySet_erel_v {nv : Int} {es : List DualEdge} {d : Int} {e : DualEdge}
    (hget : pyGet es d = some e) :
    ∀ (k : Nat) (x : DualEdge), es.get? k = some x →
      ∃ x', (pySet es d { e with v := nv }).get? k = some x' ∧ ERel nv x x' := by
  intro k x hx
  rw [pySet_get?_idx]
  split
  next hidx =>
    rw [pyGet_eq_idx, hidx] at hget
    change es.get? k = some e at hget
    rw [hx] at hget
    injection hget with hget
    subst hget
    rw [hx]
    exact ⟨_, rfl, rfl, rfl, rfl, rfl, Or.inl rfl, fun h => h, Or.inr rfl, fun _ => rfl⟩
  next hidx => exact ⟨x, hx, ERel.erefl x⟩

/-- Any `reattach` run (success or failure) relates the arenas pointwise by
`HRel`/`ERel`. -/
theorem reattach_rel {nv : Int} :
    ∀ (m : List Int) (hs : List HalfEdge) (es : List DualEdge)
      (hs' : List HalfEdge) (es' : List DualEdge) (r : Except String Unit),
      reattach nv m hs es = ((hs', es'), r) →
      (∀ (k : Nat) (h : HalfEdge), hs.get? k = some h →
        ∃ h', hs'.get? k = some h' ∧ HRel nv h h') ∧
      (∀ (k : Nat) (e : DualEdge), es.get? k = some e →
        ∃ e', es'.get? k = some e' ∧ ERel nv e e') := by
  intro m
  induction m with
  | nil =>
    intro hs es hs' es' r h
    simp only [reattach, Prod.mk.injEq] at h
    obtain ⟨⟨h1, h2⟩, _⟩ := h
    subst h1
    subst h2
    exact ⟨fun k x hx => ⟨x, hx, HRel.hrefl x⟩, fun k x hx => ⟨x, hx, ERel.erefl x⟩⟩
  | cons he rest ih =>
    intro hs es hs' es' r h
    unfold reattach at h
    split at h
    · simp only [Prod.mk.injEq] at h
      obtain ⟨⟨h1, h2⟩, _⟩ := h
      subst h1
      subst h2
      exact ⟨fun k x hx => ⟨x, hx, HRel.hrefl x⟩, fun k x hx => ⟨x, hx, ERel.erefl x⟩⟩
    next hh hget =>
      split at h
      · simp only [Prod.mk.injEq] at h
        obtain ⟨⟨h1, h2⟩, _⟩ := h
        subst h1
        subst h2
        exact ⟨fun k x hx => pySet_hrel hget k x hx,
          fun k x hx => ⟨x, hx, ERel.erefl x⟩⟩
      next e hgete =>
        split at h
        · obtain ⟨ihh, ihe⟩ := ih _ _ _ _ _ h
          refine ⟨fun k x hx => ?_, fun k x hx => ?_⟩
          · obtain ⟨x1, hx1, hr1⟩ := pySet_hrel hget k x hx
            obtain ⟨x2, hx2, hr2⟩ := ihh k x1 hx1
            exact ⟨x2, hx2, hr1.htrans hr2⟩
          · obtain ⟨x1, hx1, hr1⟩ := pySet_erel_u hgete k x hx
            obtain ⟨x2, hx2, hr2⟩ := ihe k x1 hx1
            exact ⟨x2, hx2, hr1.etrans hr2⟩
        · split at h
          · obtain ⟨ihh, ihe⟩ := ih _ _ _ _ _ h
            refine ⟨fun k x hx => ?_, fun k x hx => ?_⟩
            · obtain ⟨x1, hx1, hr1⟩ := pySet_hrel hget k x hx
              obtain ⟨x2, hx2, hr2⟩ := ihh k x1 hx1
              exact ⟨x2, hx2, hr1.htrans hr2⟩
            · obtain ⟨x1, hx1, hr1⟩ := pySet_erel_v hgete k x hx
              obtain ⟨x2, hx2, hr2⟩ := ihe k x1 hx1
              exact ⟨x2, hx2, hr1.etrans hr2⟩
          · simp only [Prod.mk.injEq] at h
            obtain ⟨⟨h1, h2⟩, _⟩ := h
            subst h1
            subst h2
            exact ⟨fun k x hx => pySet_hrel hget k x hx,
              fun k x hx => ⟨x, hx, ERel.erefl x⟩⟩

/-- A successful `reattach` run sets the origin of every moved half-edge to
the new vertex and rewires the matching endpoint of the edge its `edge`
field points to.  Stated against the original arenas `hs0`/`es0`, with the
current arenas pointwise related to them. -/
theorem reattach_rewire {nv : Int} (hs0 : List HalfEdge) (es0 : List DualEdge)
    (hback : ∀ (k : Nat) (e : DualEdge), es0.get? k = some e →
      0 ≤ e.id ∧ e.id < (es0.length : Int) ∧ 0 ≤ e.he_u ∧ 0 ≤ e.he_v ∧
      (∃ hu, hs0.get? e.he_u.toNat = some hu ∧ hu.edge = e.id) ∧
      (∃ hv, hs0.get? e.he_v.toNat = some hv ∧ hv.edge = e.id)) :
    ∀ (m : List Int) (hs : List HalfEdge) (es : List DualEdge)
      (hs' : List HalfEdge) (es' : List DualEdge),
      hs.length = hs0.length → es.length = es0.length →
      (∀ (k : Nat) (x : HalfEdge), hs0.get? k = some x →
        ∃ x', hs.get? k = some x' ∧ HRel nv x x') →
      (∀ (k : Nat) (x : DualEdge), es0.get? k = some x →
        ∃ x', es.get? k = some x' ∧ ERel nv x x') →
      (∀ he ∈ m, 0 ≤ he ∧ he < (hs0.length : Int)) →
      reattach nv m hs es = ((hs', es'), .ok ()) →
      ∀ he ∈ m, ∃ h0, hs0.get? he.toNat = some h0 ∧
        0 ≤ h0.edge ∧ h0.edge < (es0.length : Int) ∧
        (∃ h', hs'.get? he.toNat = some h' ∧ h'.origin = nv ∧ h'.edge = h0.edge) ∧
        (∃ e', es'.get? h0.edge.toNat = some e' ∧
          ((e'.he_u = he ∧ e'.u = nv) ∨
           (e'.he_u ≠ he ∧ e'.he_v = he ∧ e'.v = nv))) := by
  intro m
  induction m with
  | nil =>
    intro hs es hs' es' _ _ _ _ _ _ he hmem
    cases hmem
  | cons hd rest ih =>
    intro hs es hs' es' hlenH hlenE hrelH hrelE hm heq he hmem
    unfold reattach at heq
    split at heq
    · simp [Prod.ext_iff] at heq
    next h hget =>
      split at heq
      · simp [Prod.ext_iff] at heq
      next ecur hgete =>
        -- shared head analysis
        have hdb := hm hd (List.mem_cons_self _ _)
        have hh0x := get?_isSome_of_lt (show hd.toNat < hs0.length by omega)
        obtain ⟨h0, hh0⟩ := hh0x
        obtain ⟨hx, hhx, hrelx⟩ := hrelH hd.toNat h0 hh0
        have hgethd : hs.get? hd.toNat = some h := by
          rw [← pyGet_nonneg hs hd (by omega)]
          exact hget
        have hxh : h = hx := by
          rw [hhx] at hgethd
          injection hgethd with e
          exact e.symm
        subst hxh
        have hedge_eq : h.edge = h0.edge := hrelx.2.1
        -- resolve the edge lookup
        rw [pyGet_eq_idx] at hgete
        cases hidx : pyIdx es h.edge with
        | none =>
          rw [hidx] at hgete
          cases hgete
        | some kres =>
          rw [hidx] at hgete
          change es.get? kres = some ecur at hgete
          have hkres : kres < es0.length := by
            obtain ⟨hb, _⟩ := List.get?_eq_some.1 hgete
            omega
          obtain ⟨e0, he0⟩ := get?_isSome_of_lt hkres
          obtain ⟨e1, he1, hrele1⟩ := hrelE kres e0 he0
          have he1c : e1 = ecur := by
            rw [he1] at hgete
            injection hgete
          subst he1c
          have hbk := hback kres e0 he0
          obtain ⟨hid0, hid1, hheu0, hhev0, ⟨hu, hhu, hue⟩, ⟨hvv, hhv, hve⟩⟩ := hbk
          -- the two success branches
          split at heq
          next hbranch =>
            -- ecur.he_u = hd
            have he0u : e0.he_u = hd := by
              rw [← hrele1.2.2.1]
              exact hbranch
            have hu_is_h0 : hu = h0 := by
              rw [he0u] at hhu
              rw [hhu] at hh0
              injection hh0
            have hedge_id : h0.edge = e0.id := by
              rw [← hu_is_h0]
              exact hue
            have hkres_eq : kres = h0.edge.toNat := by
              have : pyIdx es h.edge = some h.edge.toNat := by
                unfold pyIdx
                rw [if_pos (by omega : (0:Int) ≤ h.edge)]
              rw [this] at hidx
              injection hidx with hidx
              omega
            rcases List.mem_cons.1 hmem with hmem | hmem
            · -- he = hd : conclude from the one-step update plus reattach_rel
              subst hmem
              obtain ⟨hrelH', hrelE'⟩ := reattach_rel rest _ _ _ _ _ heq
              have hs1get : (pySet hs he { h with origin := nv }).get? he.toNat =
                  some { h with origin := nv } := by
                rw [pySet_get?_idx]
                rw [if_pos (by unfold pyIdx; rw [if_pos (by omega : (0:Int) ≤ he)]), hgethd]
                rfl
              obtain ⟨h', hh', hrelh'⟩ := hrelH' he.toNat _ hs1get
              have es1get : (pySet es h.edge { e1 with u := nv }).get? kres =
                  some { e1 with u := nv } := by
                rw [pySet_get?_idx, if_pos hidx, hgete]
                rfl
              obtain ⟨e', he', hrele'⟩ := hrelE' kres _ es1get
              refine ⟨h0, hh0, by omega, by omega, ⟨h', hh', ?_, ?_⟩,
                ⟨e', ?_, Or.inl ⟨?_, ?_⟩⟩⟩
              · exact hrelh'.2.2.2 rfl
              · rw [hrelh'.2.1]
                exact hedge_eq
              · rw [← hkres_eq]
                exact he'
              · rw [hrele'.2.2.1]
                exact hbranch
              · exact hrele'.2.2.2.2.2.1 rfl
            · -- he ∈ rest : apply the induction hypothesis to the updated state
              refine ih _ _ _ _ (by rw [pySet_length]; exact hlenH)
                (by rw [pySet_length]; exact hlenE) ?_ ?_
                (fun x hx => hm x (List.mem_cons_of_mem _ hx)) heq he hmem
              · intro k x hxk
                obtain ⟨x1, hx1, hr1⟩ := hrelH k x hxk
                obtain ⟨x2, hx2, hr2⟩ := pySet_hrel hget k x1 hx1
                exact ⟨x2, hx2, hr1.htrans hr2⟩
              · intro k x hxk
                obtain ⟨x1, hx1, hr1⟩ := hrelE k x hxk
                obtain ⟨x2, hx2, hr2⟩ :=
                  pySet_erel_u (by rw [pyGet_eq_idx, hidx]; exact hgete) k x1 hx1
                exact ⟨x2, hx2, hr1.etrans hr2⟩
          next hbranch =>
            split at heq
            next hbranch2 =>
              -- ecur.he_v = hd
              have he0v : e0.he_v = hd := by
                rw [← hrele1.2.2.2.1]
                exact hbranch2
              have hv_is_h0 : hvv = h0 := by
                rw [he0v] at hhv
                rw [hhv] at hh0
                injection hh0
              have hedge_id : h0.edge = e0.id := by
                rw [← hv_is_h0]
                exact hve
              have hkres_eq : kres = h0.edge.toNat := by
                have : pyIdx es h.edge = some h.edge.toNat := by
                  unfold pyIdx
                  rw [if_pos (by omega : (0:Int) ≤ h.edge)]
                rw [this] at hidx
                injection hidx with hidx
                omega
              rcases List.mem_cons.1 hmem with hmem | hmem
              · subst hmem
                obtain ⟨hrelH', hrelE'⟩ := reattach_rel rest _ _ _ _ _ heq
                have hs1get : (pySet hs he { h with origin := nv }).get? he.toNat =
                    some { h with origin := nv } := by
                  rw [pySet_get?_idx]
                  rw [if_pos (by unfold pyIdx; rw [if_pos (by omega : (0:Int) ≤ he)]), hgethd]
                  rfl
                obtain ⟨h', hh', hrelh'⟩ := hrelH' he.toNat _ hs1get
                have es1get : (pySet es h.edge { e1 with v := nv }).get? kres =
                    some { e1 with v := nv } := by
                  rw [pySet_get?_idx, if_pos hidx, hgete]
                  rfl
                obtain ⟨e', he', hrele'⟩ := hrelE' kres _ es1get
                refine ⟨h0, hh0, by omega, by omega, ⟨h', hh', ?_, ?_⟩,
                  ⟨e', ?_, Or.inr ⟨?_, ?_, ?_⟩⟩⟩
                · exact hrelh'.2.2.2 rfl
                · rw [hrelh'.2.1]
                  exact hedge_eq
                · rw [← hkres_eq]
                  exact he'
                · rw [hrele'.2.2.1]
                  exact hbranch
                · rw [hrele'.2.2.2.1]
                  exact hbranch2
                · exact hrele'.2.2.2.2.2.2.2 rfl
              · refine ih _ _ _ _ (by rw [pySet_length]; exact hlenH)
                  (by rw [pySet_length]; exact hlenE) ?_ ?_
                  (fun x hx => hm x (List.mem_cons_of_mem _ hx)) heq he hmem
                · intro k x hxk
                  obtain ⟨x1, hx1, hr1⟩ := hrelH k x hxk
                  obtain ⟨x2, hx2, hr2⟩ := pySet_hrel hget k x1 hx1
                  exact ⟨x2, hx2, hr1.htrans hr2⟩
                · intro k x hxk
                  obtain ⟨x1, hx1, hr1⟩ := hrelE k x hxk
                  obtain ⟨x2, hx2, hr2⟩ :=
                    pySet_erel_v (by rw [pyGet_eq_idx, hidx]; exact hgete) k x1 hx1
                  exact ⟨x2, hx2, hr1.etrans hr2⟩
            next hbranch2 =>
              simp [Prod.ext_iff] at heq


/-- C6: a successful `vertex_split(v, i, j)` on a validated graph leaves
`rotation[v]` as the remaining cyclic slice `[j, i)` plus the half-edge
toward `v'`, installs the moved slice `[i, j)` plus the half-edge toward `v`
as `rotation[v']`, makes the two new rotation lengths sum to the old degree
plus 2, and rewires the matching `v`-endpoint of every moved half-edge's
owning edge to `v'`. -/
theorem claim_C6 (g g' : EmbeddedDualGraph) (v i j nv ne : Int)
    (hval : validate g = true)
    (hok : vertex_split g v i j = (g', .ok (nv, ne))) :
    ∃ rot : List Int,
      pyGet g.rotation v = some rot ∧
      g'.rotation.get? v.toNat =
        some (cycle_slice rot j i ++ [(g.halfedges.length : Int)]) ∧
      g'.rotation.get? g.vertices.length =
        some (cycle_slice rot i j ++ [(g.halfedges.length : Int) + 1]) ∧
      (cycle_slice rot j i ++ [(g.halfedges.length : Int)]).length +
        (cycle_slice rot i j ++ [(g.halfedges.length : Int) + 1]).length
        = rot.length + 2 ∧
      ∀ he ∈ cycle_slice rot i j,
        ∃ h', pyGet g'.halfedges he = some h' ∧ h'.origin = nv ∧
          ∃ e', pyGet g'.edges h'.edge = some e' ∧
            ((e'.he_u = he ∧ e'.u = nv) ∨
             (e'.he_u ≠ he ∧ e'.he_v = he ∧ e'.v = nv)) := by
  obtain ⟨hlenVR, hrotP, hedgeP⟩ := validate_iff.1 hval
  obtain ⟨vv, rot, hs1, es1, ⟨hv0, hv1⟩, hpv, hkind, hrotget, hdeg,
    ⟨hi0, hi1, hj0, hj1⟩, hij, hre, hl1, hl2, hnv, hne', hg'⟩ :=
    vertex_split_ok_inv hok
  subst hnv
  subst hg'
  have hrotg : g.rotation.get? v.toNat = some rot := by
    rw [← pyGet_nonneg g.rotation v hv0]
    exact hrotget
  have hvN : v.toNat < g.rotation.length := by
    obtain ⟨hb, _⟩ := List.get?_eq_some.1 hrotg
    omega
  have htnn : ((g.vertices.length : Int)).toNat = g.vertices.length := by omega
  have hsum : (cycle_slice rot i j).length + (cycle_slice rot j i).length
      = rot.length := by
    have hx := congrArg List.length (cycle_slice_append hi0 hi1 hj0 hj1 hij)
    simp only [List.length_append, List.length_rotate] at hx
    exact hx
  refine ⟨rot, hrotget, ?_, ?_, ?_, ?_⟩
  · show (pySet (pySet (g.rotation ++ [[]]) v
        (cycle_slice rot j i ++ [(hs1.length : Int)]))
        (g.vertices.length : Int)
        (cycle_slice rot i j ++ [(hs1.length : Int) + 1])).get? v.toNat = _
    rw [pySet_get?_idx]
    rw [if_neg (by
      unfold pyIdx
      rw [if_pos (by omega : (0:Int) ≤ (g.vertices.length : Int))]
      intro hcon
      injection hcon with hcon
      omega)]
    rw [pySet_get?_idx]
    rw [if_pos (by unfold pyIdx; rw [if_pos hv0])]
    rw [List.get?_append hvN]
    rw [hrotg, hl1]
    rfl
  · show (pySet (pySet (g.rotation ++ [[]]) v
        (cycle_slice rot j i ++ [(hs1.length : Int)]))
        (g.vertices.length : Int)
        (cycle_slice rot i j ++ [(hs1.length : Int) + 1])).get? g.vertices.length = _
    rw [pySet_get?_idx]
    rw [if_pos (by
      unfold pyIdx
      rw [if_pos (by omega : (0:Int) ≤ (g.vertices.length : Int)), htnn])]
    rw [pySet_get?_idx]
    rw [if_neg (by
      unfold pyIdx
      rw [if_pos hv0]
      intro hcon
      injection hcon with hcon
      omega)]
    rw [List.get?_append_right (by rw [hlenVR] : g.rotation.length ≤ g.vertices.length)]
    rw [hlenVR, Nat.sub_self]
    rw [hl1]
    rfl
  · simp only [List.length_append, List.length_singleton]
    omega
  · intro he hemem
    have hmoved_rot : ∀ x ∈ cycle_slice rot i j, x ∈ rot := by
      intro x hx
      have : x ∈ cycle_slice rot i j ++ cycle_slice rot j i :=
        List.mem_append.2 (Or.inl hx)
      rw [cycle_slice_append hi0 hi1 hj0 hj1 hij] at this
      exact List.mem_rotate.1 this
    have hbounds : ∀ x ∈ cycle_slice rot i j,
        0 ≤ x ∧ x < (g.halfedges.length : Int) := by
      intro x hx
      obtain ⟨hb0, hb1, _⟩ := hrotP v.toNat rot hrotg x (hmoved_rot x hx)
      exact ⟨hb0, hb1⟩
    have hback : ∀ (k : Nat) (e : DualEdge), g.edges.get? k = some e →
        0 ≤ e.id ∧ e.id < (g.edges.length : Int) ∧ 0 ≤ e.he_u ∧ 0 ≤ e.he_v ∧
        (∃ hu, g.halfedges.get? e.he_u.toNat = some hu ∧ hu.edge = e.id) ∧
        (∃ hv, g.halfedges.get? e.he_v.toNat = some hv ∧ hv.edge = e.id) := by
      intro k e hk
      obtain ⟨a1, a2, a3, _, a5, _, ⟨hu, hhu, hue, _⟩, ⟨hvx, hhv, hve, _⟩, _, _⟩ :=
        hedgeP e (List.get?_mem hk)
      exact ⟨a1, a2, a3, a5, ⟨hu, hhu, hue⟩, ⟨hvx, hhv, hve⟩⟩
    have hres := reattach_rewire g.halfedges g.edges hback
      (cycle_slice rot i j) g.halfedges g.edges hs1 es1 rfl rfl
      (fun k x hx => ⟨x, hx, HRel.hrefl x⟩) (fun k x hx => ⟨x, hx, ERel.erefl x⟩)
      hbounds hre he hemem
    obtain ⟨h0, hh0, hd0, hd1, ⟨h', hh', ho', hedge'⟩, ⟨e', he', hcase⟩⟩ := hres
    have hheN : he.toNat < hs1.length := by
      obtain ⟨hb0, hb1⟩ := hbounds he hemem
      omega
    refine ⟨h', ?_, ho', e', ?_, hcase⟩
    · show pyGet (hs1 ++ _) he = some h'
      rw [pyGet_nonneg _ _ (hbounds he hemem).1]
      rw [List.get?_append hheN]
      exact hh'
    · show pyGet (es1 ++ _) h'.edge = some e'
      rw [hedge']
      rw [pyGet_nonneg _ _ hd0]
      rw [List.get?_append (by omega : h0.edge.toNat < es1.length)]
      exact he'

theorem claim_C6_witness :
    ∃ rot : List Int, pyGet exGraph2.rotation 0 = some rot ∧
      (vertex_split exGraph2 0 0 1).1.rotation.get? 0 =
        some (cycle_slice rot 1 0 ++ [4]) ∧
      (vertex_split exGraph2 0 0 1).1.rotation.get? 2 =
        some (cycle_slice rot 0 1 ++ [5]) := by
  obtain ⟨rot, h1, h2, h3, _, _⟩ := claim_C6 exGraph2 (vertex_split exGraph2 0 0 1).1
    0 0 1 2 2 (by decide) (by rfl)
  exact ⟨rot, h1, h2, h3⟩

/-- Exact description of a successful `reattach` run under the
well-formedness side conditions: each moved half-edge's origin becomes the
new vertex, and each edge endpoint is rewired exactly when its half-edge is
moved.  `p` is the already-processed prefix. -/
theorem reattach_exact {nv : Int} (hs0 : List HalfEdge) (es0 : List DualEdge)
    (hback : ∀ (k : Nat) (e : DualEdge), es0.get? k = some e →
      e.he_u ≠ e.he_v ∧ 0 ≤ e.he_u ∧ 0 ≤ e.he_v ∧
      (∃ hu, hs0.get? e.he_u.toNat = some hu ∧ hu.edge = (k : Int)) ∧
      (∃ hv, hs0.get? e.he_v.toNat = some hv ∧ hv.edge = (k : Int))) :
    ∀ (m p : List Int) (hs : List HalfEdge) (es : List DualEdge)
      (hs' : List HalfEdge) (es' : List DualEdge),
      hs.length = hs0.length → es.length = es0.length →
      (∀ he ∈ m, 0 ≤ he ∧ he < (hs0.length : Int)) →
      (∀ (k : Nat) (h0 : HalfEdge), hs0.get? k = some h0 →
        hs.get? k = some (if (k : Int) ∈ p then { h0 with origin := nv } else h0)) →
      (∀ (k : Nat) (e0 : DualEdge), es0.get? k = some e0 →
        es.get? k = some { e0 with u := if e0.he_u ∈ p then nv else e0.u,
                                   v := if e0.he_v ∈ p then nv else e0.v }) →
      reattach nv m hs es = ((hs', es'), .ok ()) →
      (∀ (k : Nat) (h0 : HalfEdge), hs0.get? k = some h0 →
        hs'.get? k = some (if (k : Int) ∈ p ++ m then { h0 with origin := nv } else h0)) ∧
      (∀ (k : Nat) (e0 : DualEdge), es0.get? k = some e0 →
        es'.get? k = some { e0 with u := if e0.he_u ∈ p ++ m then nv else e0.u,
                                    v := if e0.he_v ∈ p ++ m then nv else e0.v }) := by
  intro m
  induction m with
  | nil =>
    intro p hs es hs' es' hlH hlE hm hinvH hinvE heq
    simp only [reattach, Prod.mk.injEq] at heq
    obtain ⟨⟨h1, h2⟩, _⟩ := heq
    subst h1
    subst h2
    rw [List.append_nil]
    exact ⟨hinvH, hinvE⟩
  | cons hd rest ih =>
    intro p hs es hs' es' hlH hlE hm hinvH hinvE heq
    have hdb := hm hd (List.mem_cons_self _ _)
    obtain ⟨h0hd, hh0hd⟩ := get?_isSome_of_lt (show hd.toNat < hs0.length by omega)
    have hhd_int : ((hd.toNat : Nat) : Int) = hd := by omega
    unfold reattach at heq
    split at heq
    · simp [Prod.ext_iff] at heq
    next h hget =>
      have hgethd : hs.get? hd.toNat = some h := by
        rw [← pyGet_nonneg hs hd (by omega)]
        exact hget
      have hcur := hinvH hd.toNat h0hd hh0hd
      rw [hgethd] at hcur
      injection hcur with hcur
      have hedge_h : h.edge = h0hd.edge := by
        rw [hcur]
        by_cases hp : (hd.toNat : Int) ∈ p
        · rw [if_pos hp]
        · rw [if_neg hp]
      split at heq
      · simp [Prod.ext_iff] at heq
      next ecur hgete =>
        rw [pyGet_eq_idx] at hgete
        cases hidx : pyIdx es h.edge with
        | none =>
          rw [hidx] at hgete
          cases hgete
        | some kres =>
          rw [hidx] at hgete
          change es.get? kres = some ecur at hgete
          have hkres : kres < es0.length := by
            obtain ⟨hb, _⟩ := List.get?_eq_some.1 hgete
            omega
          obtain ⟨e0, he0⟩ := get?_isSome_of_lt hkres
          have hecur := hinvE kres e0 he0
          rw [hgete] at hecur
          injection hecur with hecur
          obtain ⟨hne_uv, hheu0, hhev0, ⟨hu, hhu, hue⟩, ⟨hvx, hhv, hve⟩⟩ := hback kres e0 he0
          have hecur_heu : ecur.he_u = e0.he_u := by
            rw [hecur]
          have hecur_hev : ecur.he_v = e0.he_v := by
            rw [hecur]
          split at heq
          next hbranch =>
            -- moved half-edge hd is he_u of edge kres
            have he0u : e0.he_u = hd := by
              rw [← hecur_heu]
              exact hbranch
            have hu_h0 : hu = h0hd := by
              rw [he0u] at hhu
              rw [hhu] at hh0hd
              injection hh0hd
            have hd_edge : h0hd.edge = (kres : Int) := by
              rw [← hu_h0]
              exact hue
            have hkres_idx : pyIdx es h.edge = some h.edge.toNat := by
              unfold pyIdx
              rw [if_pos (by rw [hedge_h, hd_edge]; omega : (0:Int) ≤ h.edge)]
            have hkres_eq : kres = h.edge.toNat := by
              rw [hkres_idx] at hidx
              injection hidx with z
              omega
            -- invariants for the extended prefix p ++ [hd]
            have hinvH' : ∀ (k : Nat) (x0 : HalfEdge), hs0.get? k = some x0 →
                (pySet hs hd { h with origin := nv }).get? k =
                  some (if (k : Int) ∈ p ++ [hd] then { x0 with origin := nv } else x0) := by
              intro k x0 hx0
              rw [pySet_get?_idx]
              by_cases hk : k = hd.toNat
              · subst hk
                rw [if_pos (by unfold pyIdx; rw [if_pos (by omega : (0:Int) ≤ hd)]), hgethd]
                rw [hx0] at hh0hd
                injection hh0hd with z
                subst z
                rw [if_pos (by
                  refine List.mem_append.2 (Or.inr ?_)
                  rw [hhd_int]
                  exact List.mem_singleton.2 rfl)]
                rw [hcur]
                by_cases hp : (hd.toNat : Int) ∈ p
                · rw [if_pos hp]
                  rfl
                · rw [if_neg hp]
                  rfl
              · rw [if_neg (by
                  unfold pyIdx
                  rw [if_pos (by omega : (0:Int) ≤ hd)]
                  intro hcon
                  injection hcon with hcon
                  exact hk hcon.symm)]
                have hiff : ((k : Int) ∈ p ++ [hd]) ↔ ((k : Int) ∈ p) := by
                  constructor
                  · intro hx
                    rcases List.mem_append.1 hx with hx | hx
                    · exact hx
                    · exfalso
                      rw [List.mem_singleton] at hx
                      omega
                  · intro hx
                    exact List.mem_append.2 (Or.inl hx)
                rw [if_congr hiff rfl rfl]
                exact hinvH k x0 hx0
            have hinvE' : ∀ (k : Nat) (x0 : DualEdge), es0.get? k = some x0 →
                (pySet es h.edge { ecur with u := nv }).get? k =
                  some { x0 with u := if x0.he_u ∈ p ++ [hd] then nv else x0.u,
                                 v := if x0.he_v ∈ p ++ [hd] then nv else x0.v } := by
              intro k x0 hx0
              rw [pySet_get?_idx]
              by_cases hk : k = kres
              · subst hk
                rw [if_pos (by rw [hkres_idx]; rw [hkres_eq]), hgete]
                rw [hx0] at he0
                injection he0 with z
                subst z
                rw [if_pos (by
                  rw [he0u]
                  exact List.mem_append.2 (Or.inr (List.mem_singleton.2 rfl)))]
                have hiffv : (x0.he_v ∈ p ++ [hd]) ↔ (x0.he_v ∈ p) := by
                  constructor
                  · intro hx
                    rcases List.mem_append.1 hx with hx | hx
                    · exact hx
                    · exfalso
                      rw [List.mem_singleton] at hx
                      rw [← he0u] at hx
                      exact hne_uv hx.symm
                  · intro hx
                    exact List.mem_append.2 (Or.inl hx)
                rw [if_congr hiffv rfl rfl]
                rw [hecur]
                rfl
              · rw [if_neg (by
                  rw [hkres_idx]
                  intro hcon
                  injection hcon with hcon
                  exact hk (by omega))]
                have hiffu : (x0.he_u ∈ p ++ [hd]) ↔ (x0.he_u ∈ p) := by
                  constructor
                  · intro hx
                    rcases List.mem_append.1 hx with hx | hx
                    · exact hx
                    · exfalso
                      rw [List.mem_singleton] at hx
                      obtain ⟨_, _, _, ⟨hu2, hhu2, hue2⟩, _⟩ := hback k x0 hx0
                      rw [hx] at hhu2
                      rw [hhu2] at hh0hd
                      injection hh0hd with z
                      rw [← z] at hd_edge
                      rw [hue2] at hd_edge
                      exact hk (by omega)
                  · intro hx
                    exact List.mem_append.2 (Or.inl hx)
                have hiffv : (x0.he_v ∈ p ++ [hd]) ↔ (x0.he_v ∈ p) := by
                  constructor
                  · intro hx
                    rcases List.mem_append.1 hx with hx | hx
                    · exact hx
                    · exfalso
                      rw [List.mem_singleton] at hx
                      obtain ⟨_, _, _, _, ⟨hv2, hhv2, hve2⟩⟩ := hback k x0 hx0
                      rw [hx] at hhv2
                      rw [hhv2] at hh0hd
                      injection hh0hd with z
                      rw [← z] at hd_edge
                      rw [hve2] at hd_edge
                      exact hk (by omega)
                  · intro hx
                    exact List.mem_append.2 (Or.inl hx)
                rw [if_congr hiffu rfl rfl, if_congr hiffv rfl rfl]
                exact hinvE k x0 hx0
            have hres := ih (p ++ [hd]) _ _ _ _
              (by rw [pySet_length]; exact hlH) (by rw [pySet_length]; exact hlE)
              (fun x hx => hm x (List.mem_cons_of_mem _ hx)) hinvH' hinvE' heq
            rw [List.append_cons p hd rest]
            exact hres
          next hbranch =>
            split at heq
            next hbranch2 =>
              -- moved half-edge hd is he_v of edge kres
              have he0v : e0.he_v = hd := by
                rw [← hecur_hev]
                exact hbranch2
              have hv_h0 : hvx = h0hd := by
                rw [he0v] at hhv
                rw [hhv] at hh0hd
                injection hh0hd
              have hd_edge : h0hd.edge = (kres : Int) := by
                rw [← hv_h0]
                exact hve
              have hkres_idx : pyIdx es h.edge = some h.edge.toNat := by
                unfold pyIdx
                rw [if_pos (by rw [hedge_h, hd_edge]; omega : (0:Int) ≤ h.edge)]
              have hkres_eq : kres = h.edge.toNat := by
                rw [hkres_idx] at hidx
                injection hidx with z
                omega
              have hinvH' : ∀ (k : Nat) (x0 : HalfEdge), hs0.get? k = some x0 →
                  (pySet hs hd { h with origin := nv }).get? k =
                    some (if (k : Int) ∈ p ++ [hd] then { x0 with origin := nv } else x0) := by
                intro k x0 hx0
                rw [pySet_get?_idx]
                by_cases hk : k = hd.toNat
                · subst hk
                  rw [if_pos (by unfold pyIdx; rw [if_pos (by omega : (0:Int) ≤ hd)]), hgethd]
                  rw [hx0] at hh0hd
                  injection hh0hd with z
                  subst z
                  rw [if_pos (by
                    refine List.mem_append.2 (Or.inr ?_)
                    rw [hhd_int]
                    exact List.mem_singleton.2 rfl)]
                  rw [hcur]
                  by_cases hp : (hd.toNat : Int) ∈ p
                  · rw [if_pos hp]
                    rfl
                  · rw [if_neg hp]
                    rfl
                · rw [if_neg (by
                    unfold pyIdx
                    rw [if_pos (by omega : (0:Int) ≤ hd)]
                    intro hcon
                    injection hcon with hcon
                    exact hk hcon.symm)]
                  have hiff : ((k : Int) ∈ p ++ [hd]) ↔ ((k : Int) ∈ p) := by
                    constructor
                    · intro hx
                      rcases List.mem_append.1 hx with hx | hx
                      · exact hx
                      · exfalso
                        rw [List.mem_singleton] at hx
                        omega
                    · intro hx
                      exact List.mem_append.2 (Or.inl hx)
                  rw [if_congr hiff rfl rfl]
                  exact hinvH k x0 hx0
              have hinvE' : ∀ (k : Nat) (x0 : DualEdge), es0.get? k = some x0 →
                  (pySet es h.edge { ecur with v := nv }).get? k =
                    some { x0 with u := if x0.he_u ∈ p ++ [hd] then nv else x0.u,
                                   v := if x0.he_v ∈ p ++ [hd] then nv else x0.v } := by
                intro k x0 hx0
                rw [pySet_get?_idx]
                by_cases hk : k = kres
                · subst hk
                  rw [if_pos (by rw [hkres_idx]; rw [hkres_eq]), hgete]
                  rw [hx0] at he0
                  injection he0 with z
                  subst z
                  have hiffu : (x0.he_u ∈ p ++ [hd]) ↔ (x0.he_u ∈ p) := by
                    constructor
                    · intro hx
                      rcases List.mem_append.1 hx with hx | hx
                      · exact hx
                      · exfalso
                        rw [List.mem_singleton] at hx
                        rw [← he0v] at hx
                        exact hne_uv hx
                    · intro hx
                      exact List.mem_append.2 (Or.inl hx)
                  rw [if_congr hiffu rfl rfl]
                  rw [if_pos (show x0.he_v ∈ p ++ [hd] by
                    rw [he0v]
                    exact List.mem_append.2 (Or.inr (List.mem_singleton.2 rfl)))]
                  rw [hecur]
                  rfl
                · rw [if_neg (by
                    rw [hkres_idx]
                    intro hcon
                    injection hcon with hcon
                    exact hk (by omega))]
                  have hiffu : (x0.he_u ∈ p ++ [hd]) ↔ (x0.he_u ∈ p) := by
                    constructor
                    · intro hx
                      rcases List.mem_append.1 hx with hx | hx
                      · exact hx
                      · exfalso
                        rw [List.mem_singleton] at hx
                        obtain ⟨_, _, _, ⟨hu2, hhu2, hue2⟩, _⟩ := hback k x0 hx0
                        rw [hx] at hhu2
                        rw [hhu2] at hh0hd
                        injection hh0hd with z
                        rw [← z] at hd_edge
                        rw [hue2] at hd_edge
                        exact hk (by omega)
                    · intro hx
                      exact List.mem_append.2 (Or.inl hx)
                  have hiffv : (x0.he_v ∈ p ++ [hd]) ↔ (x0.he_v ∈ p) := by
                    constructor
                    · intro hx
                      rcases List.mem_append.1 hx with hx | hx
                      · exact hx
                      · exfalso
                        rw [List.mem_singleton] at hx
                        obtain ⟨_, _, _, _, ⟨hv2, hhv2, hve2⟩⟩ := hback k x0 hx0
                        rw [hx] at hhv2
                        rw [hhv2] at hh0hd
                        injection hh0hd with z
                        rw [← z] at hd_edge
                        rw [hve2] at hd_edge
                        exact hk (by omega)
                    · intro hx
                      exact List.mem_append.2 (Or.inl hx)
                  rw [if_congr hiffu rfl rfl, if_congr hiffv rfl rfl]
                  exact hinvE k x0 hx0
              have hres := ih (p ++ [hd]) _ _ _ _
                (by rw [pySet_length]; exact hlH) (by rw [pySet_length]; exact hlE)
                (fun x hx => hm x (List.mem_cons_of_mem _ hx)) hinvH' hinvE' heq
              rw [List.append_cons p hd rest]
              exact hres
            next hbranch2 =>
              simp [Prod.ext_iff] at heq

/-- A successful `split_arc` preserves `validate`, with no side conditions
beyond validity of the input. -/
theorem split_arc_preserves {g g' : EmbeddedDualGraph} {eid r : Int}
    (hval : validate g = true) (hok : split_arc g eid = (g', .ok r)) :
    validate g' = true := by
  have hvP := validate_iff.1 hval
  obtain ⟨hlenVR, hrotP, hedgeP⟩ := hvP
  obtain ⟨h0, h1, e, rotu, iu, rotv, iv, hpe, hru, hiu, hrv, hiv⟩ :=
    split_arc_ok_inv hok
  rw [split_arc_ok h0 h1 hpe hru hiu hrv hiv] at hok
  simp only [Prod.mk.injEq, Except.ok.injEq] at hok
  obtain ⟨hg', hr⟩ := hok
  subst hg'
  have hmem : e ∈ g.edges := by
    rcases pyGet_eq_some hpe with ⟨_, hg⟩ | ⟨hneg, _, _⟩
    · exact List.get?_mem hg
    · omega
  obtain ⟨hu0, hu1, ru0, hru0, humem0⟩ :=
    (validate_iff.1 hval).edge_u_bounds hmem
  obtain ⟨hv0, hv1, rv0, hrv0, hvmem0⟩ :=
    (validate_iff.1 hval).edge_v_bounds hmem
  have hruN : g.rotation.get? e.u.toNat = some rotu := by
    rw [pyGet_nonneg _ _ hu0] at hru
    exact hru
  have hrvN : g.rotation.get? e.v.toNat = some rotv := by
    rw [pyGet_nonneg _ _ hv0] at hrv
    exact hrv
  obtain ⟨hiuL, hiuG⟩ := pyIndex_get hiu
  obtain ⟨hivL, hivG⟩ := pyIndex_get hiv
  set nh : Int := (g.halfedges.length : Int) with hnh
  set NEWU := pyInsert rotu (iu + 1) nh with hNEWU
  set rot1 := pySet g.rotation e.u NEWU with hrot1
  set rotv2 := (pyGet rot1 e.v).getD [] with hrotv2
  set NEWV := pyInsert rotv2 (iv + 1) (nh + 1) with hNEWV
  set rot2 := pySet rot1 e.v NEWV with hrot2
  have hlen1 : rot1.length = g.rotation.length := pySet_length _ _ _
  have hlen2 : rot2.length = g.rotation.length := by
    rw [hrot2, pySet_length, hlen1]
  have hidxu : pyIdx g.rotation e.u = some e.u.toNat := by
    unfold pyIdx
    rw [if_pos hu0]
  have hidxv1 : pyIdx rot1 e.v = some e.v.toNat := by
    unfold pyIdx
    rw [if_pos hv0]
  -- description of the rows of the final rotation table
  have hrow : ∀ (w : Nat) (row' : List Int), rot2.get? w = some row' →
      ∃ row₀, g.rotation.get? w = some row₀ ∧
        (∀ x ∈ row₀, x ∈ row') ∧
        (∀ x ∈ row', x ∈ row₀ ∨ (x = nh ∧ (w : Int) = e.u) ∨
          (x = nh + 1 ∧ (w : Int) = e.v)) ∧
        ((w : Int) = e.u → nh ∈ row') ∧ ((w : Int) = e.v → nh + 1 ∈ row') := by
    intro w row' hw
    have hrot1w : ∀ (z : Nat), rot1.get? z =
        if z = e.u.toNat then Option.map (fun _ => NEWU) (g.rotation.get? z)
        else g.rotation.get? z := by
      intro z
      rw [hrot1, pySet_get?_idx, hidxu]
      by_cases hz : z = e.u.toNat
      · rw [if_pos (by rw [hz]), if_pos hz]
      · rw [if_neg (by intro hcon; injection hcon with hcon; exact hz hcon.symm),
          if_neg hz]
    have hrotv2val : (e.v.toNat = e.u.toNat → rotv2 = NEWU) ∧
        (e.v.toNat ≠ e.u.toNat → rotv2 = rotv) := by
      constructor
      · intro hcase
        rw [hrotv2, pyGet_nonneg _ _ hv0, hrot1w, if_pos hcase, hcase, hruN]
        rfl
      · intro hcase
        rw [hrotv2, pyGet_nonneg _ _ hv0, hrot1w, if_neg hcase, hrvN]
        rfl
    rw [hrot2, pySet_get?_idx, hidxv1] at hw
    by_cases hwv : w = e.v.toNat
    · rw [if_pos (by rw [hwv])] at hw
      have hwInt : (w : Int) = e.v := by omega
      obtain ⟨rw1, hrw1⟩ := get?_isSome_of_lt (show w < rot1.length by omega)
      rw [hrw1] at hw
      simp only [Option.map_some'] at hw
      injection hw with hw
      by_cases huv : e.v.toNat = e.u.toNat
      · have hrv2 : rotv2 = NEWU := hrotv2val.1 huv
        have hworig : g.rotation.get? w = some rotu := by
          rw [hwv, huv]
          exact hruN
        refine ⟨rotu, hworig, ?_, ?_, ?_, ?_⟩
        · intro x hx
          rw [← hw, hNEWV]
          exact pyInsert_mem.2 (Or.inl (by
            rw [hrv2, hNEWU]
            exact pyInsert_mem.2 (Or.inl hx)))
        · intro x hx
          rw [← hw] at hx
          rcases pyInsert_mem.1 hx with hx | hx
          · rw [hrv2] at hx
            rcases pyInsert_mem.1 hx with hx | hx
            · exact Or.inl hx
            · exact Or.inr (Or.inl ⟨hx, by omega⟩)
          · exact Or.inr (Or.inr ⟨hx, hwInt⟩)
        · intro _
          rw [← hw]
          exact pyInsert_mem.2 (Or.inl (by
            rw [hrv2, hNEWU]
            exact pyInsert_mem.2 (Or.inr rfl)))
        · intro _
          rw [← hw]
          exact pyInsert_mem.2 (Or.inr rfl)
      · have hrv2 : rotv2 = rotv := hrotv2val.2 huv
        have hworig : g.rotation.get? w = some rotv := by
          rw [hwv]
          exact hrvN
        refine ⟨rotv, hworig, ?_, ?_, ?_, ?_⟩
        · intro x hx
          rw [← hw, hNEWV]
          exact pyInsert_mem.2 (Or.inl (by rw [hrv2]; exact hx))
        · intro x hx
          rw [← hw] at hx
          rcases pyInsert_mem.1 hx with hx | hx
          · rw [hrv2] at hx
            exact Or.inl hx
          · exact Or.inr (Or.inr ⟨hx, hwInt⟩)
        · intro hcon
          exfalso
          exact huv (by omega)
        · intro _
          rw [← hw]
          exact pyInsert_mem.2 (Or.inr rfl)
    · rw [if_neg (by intro hcon; injection hcon with hcon; exact hwv hcon.symm)] at hw
      rw [hrot1w] at hw
      by_cases hwu : w = e.u.toNat
      · rw [if_pos hwu] at hw
        have hwInt : (w : Int) = e.u := by omega
        have hworig : g.rotation.get? w = some rotu := by
          rw [hwu]
          exact hruN
        rw [hworig] at hw
        simp only [Option.map_some'] at hw
        injection hw with hw
        refine ⟨rotu, hworig, ?_, ?_, ?_, ?_⟩
        · intro x hx
          rw [← hw, hNEWU]
          exact pyInsert_mem.2 (Or.inl hx)
        · intro x hx
          rw [← hw] at hx
          rcases pyInsert_mem.1 hx with hx | hx
          · exact Or.inl hx
          · exact Or.inr (Or.inl ⟨hx, hwInt⟩)
        · intro _
          rw [← hw]
          exact pyInsert_mem.2 (Or.inr rfl)
        · intro hcon
          exfalso
          exact hwv (by omega)
      · rw [if_neg hwu] at hw
        refine ⟨row', hw, fun x hx => hx, fun x hx => Or.inl hx, ?_, ?_⟩
        · intro hcon
          exfalso
          exact hwu (by omega)
        · intro hcon
          exfalso
          exact hwv (by omega)
  -- assemble validity of the result
  rw [validate_iff]
  refine ⟨?_, ?_, ?_⟩
  · show rot2.length = g.vertices.length
    rw [hlen2, hlenVR]
  · intro w row hwrow x hx
    obtain ⟨row₀, hrow₀, _, hback, _, _⟩ := hrow w row hwrow
    rcases hback x hx with hx0 | ⟨hx0, hwu⟩ | ⟨hx0, hwv⟩
    · exact RotEntryP_append (hrotP w row₀ hrow₀ x hx0)
    · subst hx0
      refine ⟨by omega, by
        simp only [List.length_append, List.length_cons, List.length_nil]
        omega, ?_⟩
      refine ⟨⟨nh, (g.edges.length : Int), e.u⟩, ?_, ?_⟩
      · rw [List.get?_append_right (by omega : g.halfedges.length ≤ nh.toNat)]
        rw [show nh.toNat - g.halfedges.length = 0 by omega]
        rfl
      · exact hwu.symm
    · subst hx0
      refine ⟨by omega, by
        simp only [List.length_append, List.length_cons, List.length_nil]
        omega, ?_⟩
      refine ⟨⟨nh + 1, (g.edges.length : Int), e.v⟩, ?_, ?_⟩
      · rw [List.get?_append_right (by omega : g.halfedges.length ≤ (nh + 1).toNat)]
        rw [show (nh + 1).toNat - g.halfedges.length = 1 by omega]
        rfl
      · exact hwv.symm
  · intro e'' hmem''
    rcases List.mem_append.1 hmem'' with hold | hnew
    · obtain ⟨a1, a2, a3, a4, a5, a6, ⟨hu', hhu', hue', huo'⟩,
        ⟨hv', hhv', hve', hvo'⟩, ⟨rue, hrue, humem_e⟩, ⟨rve, hrve, hvmem_e⟩⟩ :=
        hedgeP e'' hold
      obtain ⟨bu0, bu1, rueN, hrueN, humemN⟩ :=
        (validate_iff.1 hval).edge_u_bounds hold
      obtain ⟨bv0, bv1, rveN, hrveN, hvmemN⟩ :=
        (validate_iff.1 hval).edge_v_bounds hold
      obtain ⟨rowu', hrowu'⟩ := get?_isSome_of_lt
        (show e''.u.toNat < rot2.length by omega)
      obtain ⟨rowv', hrowv'⟩ := get?_isSome_of_lt
        (show e''.v.toNat < rot2.length by omega)
      obtain ⟨rowu₀, hrowu₀, hfwdu, _, _, _⟩ := hrow _ _ hrowu'
      obtain ⟨rowv₀, hrowv₀, hfwdv, _, _, _⟩ := hrow _ _ hrowv'
      have hu_eq : rowu₀ = rueN := by
        rw [hrowu₀] at hrueN
        injection hrueN
      have hv_eq : rowv₀ = rveN := by
        rw [hrowv₀] at hrveN
        injection hrveN
      refine ⟨a1, (by
        dsimp only
        first
        | omega
        | (simp only [List.length_append, List.length_cons, List.length_nil]
           omega)), a3, (by
        dsimp only
        first
        | omega
        | (simp only [List.length_append, List.length_cons, List.length_nil]
           omega)), a5, (by
        dsimp only
        first
        | omega
        | (simp only [List.length_append, List.length_cons, List.length_nil]
           omega)),
        ⟨hu', ?_, hue', huo'⟩, ⟨hv', ?_, hve', hvo'⟩, ⟨rowu', ?_, ?_⟩, ⟨rowv', ?_, ?_⟩⟩
      · rw [List.get?_append (by obtain ⟨hb, _⟩ := List.get?_eq_some.1 hhu'; omega)]
        exact hhu'
      · rw [List.get?_append (by obtain ⟨hb, _⟩ := List.get?_eq_some.1 hhv'; omega)]
        exact hhv'
      · rw [pyGet_nonneg _ _ bu0]
        exact hrowu'
      · exact hfwdu e''.he_u (by rw [hu_eq]; exact humemN)
      · rw [pyGet_nonneg _ _ bv0]
        exact hrowv'
      · exact hfwdv e''.he_v (by rw [hv_eq]; exact hvmemN)
    · rw [List.mem_singleton] at hnew
      subst hnew
      obtain ⟨rowu', hrowu'⟩ := get?_isSome_of_lt
        (show e.u.toNat < rot2.length by omega)
      obtain ⟨rowv', hrowv'⟩ := get?_isSome_of_lt
        (show e.v.toNat < rot2.length by omega)
      obtain ⟨_, _, _, _, hsideU, _⟩ := hrow _ _ hrowu'
      obtain ⟨_, _, _, _, _, hsideV⟩ := hrow _ _ hrowv'
      refine ⟨(by
        dsimp only
        first
        | omega
        | (simp only [List.length_append, List.length_cons, List.length_nil]
           omega)), (by
        dsimp only
        first
        | omega
        | (simp only [List.length_append, List.length_cons, List.length_nil]
           omega)), (by
        dsimp only
        first
        | omega
        | (simp only [List.length_append, List.length_cons, List.length_nil]
           omega)), (by
        dsimp only
        first
        | omega
        | (simp only [List.length_append, List.length_cons, List.length_nil]
           omega)), (by
        dsimp only
        first
        | omega
        | (simp only [List.length_append, List.length_cons, List.length_nil]
           omega)), (by
        dsimp only
        first
        | omega
        | (simp only [List.length_append, List.length_cons, List.length_nil]
           omega)),
        ?_, ?_, ⟨rowu', ?_, ?_⟩, ⟨rowv', ?_, ?_⟩⟩
      · refine ⟨⟨nh, (g.edges.length : Int), e.u⟩, ?_, rfl, rfl⟩
        rw [List.get?_append_right (by omega : g.halfedges.length ≤ nh.toNat)]
        rw [show nh.toNat - g.halfedges.length = 0 by omega]
        rfl
      · refine ⟨⟨nh + 1, (g.edges.length : Int), e.v⟩, ?_, rfl, rfl⟩
        rw [List.get?_append_right (by omega : g.halfedges.length ≤ (nh + 1).toNat)]
        rw [show (nh + 1).toNat - g.halfedges.length = 1 by omega]
        rfl
      · rw [pyGet_nonneg _ _ hu0]
        exact hrowu'
      · exact hsideU (by omega)
      · rw [pyGet_nonneg _ _ hv0]
        exact hrowv'
      · exact hsideV (by omega)

/-- A successful `vertex_split` preserves `validate`, provided the input
also satisfies the three well-formedness side conditions (edge ids match
indices, no edge reuses one half-edge for both endpoints, no rotation list
repeats a half-edge). -/
theorem vertex_split_preserves {g g' : EmbeddedDualGraph} {v i j nv ne : Int}
    (hval : validate g = true) (hids : IdsMatch g) (hdegc : NoDegenerateEdge g)
    (hnod : RotNodup g)
    (hok : vertex_split g v i j = (g', .ok (nv, ne))) :
    validate g' = true := by
  obtain ⟨hlenVR, hrotP, hedgeP⟩ := validate_iff.1 hval
  obtain ⟨vv, rot, hs1, es1, ⟨hv0, hv1⟩, hpv, hkind, hrotget, hdeg,
    ⟨hi0, hi1, hj0, hj1⟩, hij, hre, hl1, hl2, hnv, hne', hg'⟩ :=
    vertex_split_ok_inv hok
  subst hg'
  have hrotg : g.rotation.get? v.toNat = some rot := by
    rw [← pyGet_nonneg g.rotation v hv0]
    exact hrotget
  have hvN : v.toNat < g.rotation.length := by
    obtain ⟨hb, _⟩ := List.get?_eq_some.1 hrotg
    omega
  have hbnd := hrotP v.toNat rot hrotg
  have hnodup : (cycle_slice rot i j ++ cycle_slice rot j i).Nodup := by
    rw [cycle_slice_append hi0 hi1 hj0 hj1 hij]
    exact List.nodup_rotate.2 (hnod rot (List.get?_mem hrotg))
  have hdisj : ∀ x ∈ cycle_slice rot i j, x ∉ cycle_slice rot j i := by
    intro x hx
    exact (List.disjoint_of_nodup_append hnodup) hx
  have hmemrot : ∀ x, x ∈ cycle_slice rot i j ∨ x ∈ cycle_slice rot j i → x ∈ rot := by
    intro x hx
    have : x ∈ cycle_slice rot i j ++ cycle_slice rot j i := List.mem_append.2 hx
    rw [cycle_slice_append hi0 hi1 hj0 hj1 hij] at this
    exact List.mem_rotate.1 this
  have hrotmem : ∀ x ∈ rot, x ∈ cycle_slice rot i j ∨ x ∈ cycle_slice rot j i := by
    intro x hx
    rw [← List.mem_append, cycle_slice_append hi0 hi1 hj0 hj1 hij, List.mem_rotate]
    exact hx
  have hback : ∀ (k : Nat) (e : DualEdge), g.edges.get? k = some e →
      e.he_u ≠ e.he_v ∧ 0 ≤ e.he_u ∧ 0 ≤ e.he_v ∧
      (∃ hu, g.halfedges.get? e.he_u.toNat = some hu ∧ hu.edge = (k : Int)) ∧
      (∃ hv, g.halfedges.get? e.he_v.toNat = some hv ∧ hv.edge = (k : Int)) := by
    intro k e hk
    have hkid := hids k e hk
    obtain ⟨_, _, a3, _, a5, _, ⟨hu, hhu, hue, _⟩, ⟨hvx, hhv, hve, _⟩, _, _⟩ :=
      hedgeP e (List.get?_mem hk)
    exact ⟨hdegc e (List.get?_mem hk), a3, a5,
      ⟨hu, hhu, by rw [hue, hkid]⟩, ⟨hvx, hhv, by rw [hve, hkid]⟩⟩
  have hmbnd : ∀ he ∈ cycle_slice rot i j, 0 ≤ he ∧ he < (g.halfedges.length : Int) := by
    intro he hx
    obtain ⟨b0, b1, _⟩ := hbnd he (hmemrot he (Or.inl hx))
    exact ⟨b0, b1⟩
  obtain ⟨hsdesc, hesdesc⟩ := reattach_exact g.halfedges g.edges hback
    (cycle_slice rot i j) [] g.halfedges g.edges hs1 es1 rfl rfl hmbnd
    (fun k h0 hk => by rw [if_neg (List.not_mem_nil _)]; exact hk)
    (fun k e0 hk => by rw [if_neg (List.not_mem_nil _), if_neg (List.not_mem_nil _)]; exact hk)
    hre
  simp only [List.nil_append] at hsdesc hesdesc
  set moved := cycle_slice rot i j with hmoved
  set remaining := cycle_slice rot j i with hremaining
  set NVi : Int := (g.vertices.length : Int) with hNVi
  set nh : Int := (hs1.length : Int) with hnh
  have hNVt : NVi.toNat = g.vertices.length := by omega
  have hrowF : ∀ (w : Nat) (row' : List Int),
      (pySet (pySet (g.rotation ++ [[]]) v (remaining ++ [nh])) NVi
        (moved ++ [nh + 1])).get? w = some row' →
      (w = v.toNat ∧ row' = remaining ++ [nh]) ∨
      (w = g.vertices.length ∧ row' = moved ++ [nh + 1]) ∨
      (w ≠ v.toNat ∧ w ≠ g.vertices.length ∧ g.rotation.get? w = some row') := by
    intro w row' hw
    rw [pySet_get?_idx] at hw
    by_cases hwn : w = g.vertices.length
    · rw [if_pos (by unfold pyIdx; rw [if_pos (by omega : (0:Int) ≤ NVi)]; rw [hNVt, hwn])] at hw
      obtain ⟨r1, hr1⟩ := get?_isSome_of_lt (show w < (pySet (g.rotation ++ [[]]) v
        (remaining ++ [nh])).length by
          rw [pySet_length, List.length_append, List.length_singleton]
          omega)
      rw [hr1] at hw
      simp only [Option.map_some'] at hw
      injection hw with hw
      exact Or.inr (Or.inl ⟨hwn, hw.symm⟩)
    · rw [if_neg (by
        unfold pyIdx
        rw [if_pos (by omega : (0:Int) ≤ NVi)]
        intro hcon
        injection hcon with hcon
        omega)] at hw
      rw [pySet_get?_idx] at hw
      by_cases hwv : w = v.toNat
      · rw [if_pos (by unfold pyIdx; rw [if_pos hv0]; rw [hwv])] at hw
        obtain ⟨r1, hr1⟩ := get?_isSome_of_lt (show w < (g.rotation ++ [[]]).length by
          rw [List.length_append, List.length_singleton]
          omega)
        rw [hr1] at hw
        simp only [Option.map_some'] at hw
        injection hw with hw
        exact Or.inl ⟨hwv, hw.symm⟩
      · rw [if_neg (by
          unfold pyIdx
          rw [if_pos hv0]
          intro hcon
          injection hcon with hcon
          omega)] at hw
        have hwb : w < (g.rotation ++ [[]]).length := by
          obtain ⟨hb, _⟩ := List.get?_eq_some.1 hw
          omega
        rw [List.length_append, List.length_singleton] at hwb
        rw [List.get?_append (by omega : w < g.rotation.length)] at hw
        exact Or.inr (Or.inr ⟨hwv, hwn, hw⟩)
  rw [validate_iff]
  refine ⟨?_, ?_, ?_⟩
  · show (pySet (pySet (g.rotation ++ [[]]) v (remaining ++ [nh])) NVi
      (moved ++ [nh + 1])).length = (g.vertices ++ [_]).length
    rw [pySet_length, pySet_length, List.length_append, List.length_append]
    rw [hlenVR]
    simp only [List.length_singleton]
  · intro w row hwrow x hx
    rcases hrowF w row hwrow with ⟨hwv, hrow⟩ | ⟨hwn, hrow⟩ | ⟨hwv, hwn, hrow⟩
    · subst hrow
      subst hwv
      rcases List.mem_append.1 hx with hx | hx
      · obtain ⟨b0, b1, h0, hh0, ho0⟩ := hbnd x (hmemrot x (Or.inr hx))
        have hxm : x ∉ moved := fun hc => hdisj x hc hx
        have hdesc := hsdesc x.toNat h0 hh0
        rw [if_neg (by rw [show ((x.toNat : Nat) : Int) = x by omega]; exact hxm)] at hdesc
        refine ⟨b0, by
          rw [List.length_append]
          simp only [List.length_cons, List.length_nil]
          omega, ⟨h0, ?_, ho0⟩⟩
        rw [List.get?_append (by omega : x.toNat < hs1.length)]
        exact hdesc
      · rw [List.mem_singleton] at hx
        subst hx
        refine ⟨by omega, by
          rw [List.length_append]
          simp only [List.length_cons, List.length_nil]
          omega, ?_⟩
        refine ⟨⟨nh, (es1.length : Int), v⟩, ?_, by dsimp only; omega⟩
        rw [List.get?_append_right (by omega : hs1.length ≤ nh.toNat)]
        rw [show nh.toNat - hs1.length = 0 by omega]
        rfl
    · subst hrow
      subst hwn
      rcases List.mem_append.1 hx with hx | hx
      · obtain ⟨b0, b1, h0, hh0, ho0⟩ := hbnd x (hmemrot x (Or.inl hx))
        have hdesc := hsdesc x.toNat h0 hh0
        rw [if_pos (by rw [show ((x.toNat : Nat) : Int) = x by omega]; exact hx)] at hdesc
        refine ⟨b0, by
          rw [List.length_append]
          simp only [List.length_cons, List.length_nil]
          omega, ?_⟩
        refine ⟨{ h0 with origin := NVi }, ?_, by dsimp only⟩
        rw [List.get?_append (by omega : x.toNat < hs1.length)]
        exact hdesc
      · rw [List.mem_singleton] at hx
        subst hx
        refine ⟨by omega, by
          rw [List.length_append]
          simp only [List.length_cons, List.length_nil]
          omega, ?_⟩
        refine ⟨⟨nh + 1, (es1.length : Int), NVi⟩, ?_, by dsimp only⟩
        rw [List.get?_append_right (by omega : hs1.length ≤ (nh + 1).toNat)]
        rw [show (nh + 1).toNat - hs1.length = 1 by omega]
        rfl
    · -- untouched row
      obtain ⟨b0, b1, h0, hh0, ho0⟩ := hrotP w row hrow x hx
      have hxm : x ∉ moved := by
        intro hc
        obtain ⟨_, _, h0', hh0', ho0'⟩ := hbnd x (hmemrot x (Or.inl hc))
        rw [hh0] at hh0'
        injection hh0' with z
        rw [← z] at ho0'
        rw [ho0] at ho0'
        exact hwv (by omega)
      have hdesc := hsdesc x.toNat h0 hh0
      rw [if_neg (by rw [show ((x.toNat : Nat) : Int) = x by omega]; exact hxm)] at hdesc
      refine ⟨b0, by
        rw [List.length_append]
        simp only [List.length_cons, List.length_nil]
        omega, ⟨h0, ?_, ho0⟩⟩
      rw [List.get?_append (by omega : x.toNat < hs1.length)]
      exact hdesc
  · intro e'' hmem''
    rcases List.mem_append.1 hmem'' with hold | hnew
    · obtain ⟨k, hk⟩ := List.mem_iff_get?.1 hold
      have hkb : k < g.edges.length := by
        obtain ⟨hb, _⟩ := List.get?_eq_some.1 hk
        omega
      obtain ⟨e0, he0⟩ := get?_isSome_of_lt hkb
      have hdesc := hesdesc k e0 he0
      rw [hk] at hdesc
      injection hdesc with hdesc
      have hkid := hids k e0 he0
      obtain ⟨a1, a2, a3, a4, a5, a6, ⟨hu, hhu, hue, huo⟩, ⟨hvx, hhv, hve, hvo⟩,
        _, _⟩ := hedgeP e0 (List.get?_mem he0)
      obtain ⟨bu0, bu1, rueN, hrueN, humemN⟩ :=
        (validate_iff.1 hval).edge_u_bounds (List.get?_mem he0)
      obtain ⟨bv0, bv1, rveN, hrveN, hvmemN⟩ :=
        (validate_iff.1 hval).edge_v_bounds (List.get?_mem he0)
      have hfin : ∀ (heid : Int) (hh0 : HalfEdge),
          0 ≤ heid → g.halfedges.get? heid.toNat = some hh0 →
          (hs1 ++ ([⟨nh, (es1.length : Int), v⟩,
            ⟨nh + 1, (es1.length : Int), NVi⟩] : List HalfEdge)).get? heid.toNat =
            some (if heid ∈ moved then { hh0 with origin := NVi } else hh0) := by
        intro heid hh0 hpos hget
        have hbnd2 : heid.toNat < hs1.length := by
          obtain ⟨hb, _⟩ := List.get?_eq_some.1 hget
          omega
        rw [List.get?_append hbnd2]
        have hdesc2 := hsdesc heid.toNat hh0 hget
        rw [show ((heid.toNat : Nat) : Int) = heid by omega] at hdesc2
        exact hdesc2
      have hmemF : ∀ (heid uu : Int) (rowOrig : List Int),
          0 ≤ uu → uu < (g.rotation.length : Int) →
          g.rotation.get? uu.toNat = some rowOrig → heid ∈ rowOrig →
          heid ∉ moved →
          ∃ rowF, pyGet (pySet (pySet (g.rotation ++ [[]]) v (remaining ++ [nh])) NVi
            (moved ++ [nh + 1])) uu = some rowF ∧ heid ∈ rowF := by
        intro heid uu rowOrig huu0 huu1 hrowO hmemO hnm
        obtain ⟨rowF, hrowFg⟩ := get?_isSome_of_lt (show uu.toNat <
          (pySet (pySet (g.rotation ++ [[]]) v (remaining ++ [nh])) NVi
            (moved ++ [nh + 1])).length by
          rw [pySet_length, pySet_length, List.length_append, List.length_singleton]
          omega)
        refine ⟨rowF, by rw [pyGet_nonneg _ _ huu0]; exact hrowFg, ?_⟩
        rcases hrowF uu.toNat rowF hrowFg with ⟨hwv, hrow⟩ | ⟨hwn, hrow⟩ | ⟨_, _, hrow⟩
        · subst hrow
          have : rowOrig = rot := by
            rw [hwv] at hrowO
            rw [hrowO] at hrotg
            injection hrotg
          subst this
          rcases hrotmem heid hmemO with hx | hx
          · exact absurd hx hnm
          · exact List.mem_append.2 (Or.inl hx)
        · exfalso
          omega
        · rw [hrow] at hrowO
          injection hrowO with z
          rw [z]
          exact hmemO
      rw [hdesc]
      refine ⟨?_, ?_, a3, ?_, a5, ?_, ?_, ?_, ?_, ?_⟩
      · dsimp only
        rw [hkid]
        omega
      · dsimp only
        rw [hkid, List.length_append, List.length_singleton]
        omega
      · dsimp only
        rw [List.length_append]
        simp only [List.length_cons, List.length_nil]
        omega
      · dsimp only
        rw [List.length_append]
        simp only [List.length_cons, List.length_nil]
        omega
      · dsimp only
        refine ⟨if e0.he_u ∈ moved then { hu with origin := NVi } else hu, ?_, ?_, ?_⟩
        · rw [hfin e0.he_u hu a3 hhu]
        · by_cases hc : e0.he_u ∈ moved
          · rw [if_pos hc]
            exact hue
          · rw [if_neg hc]
            exact hue
        · by_cases hc : e0.he_u ∈ moved
          · rw [if_pos hc, if_pos hc]
          · rw [if_neg hc, if_neg hc]
            exact huo
      · dsimp only
        refine ⟨if e0.he_v ∈ moved then { hvx with origin := NVi } else hvx, ?_, ?_, ?_⟩
        · rw [hfin e0.he_v hvx a5 hhv]
        · by_cases hc : e0.he_v ∈ moved
          · rw [if_pos hc]
            exact hve
          · rw [if_neg hc]
            exact hve
        · by_cases hc : e0.he_v ∈ moved
          · rw [if_pos hc, if_pos hc]
          · rw [if_neg hc, if_neg hc]
            exact hvo
      · dsimp only
        by_cases hc : e0.he_u ∈ moved
        · rw [if_pos hc]
          refine ⟨moved ++ [nh + 1], ?_, List.mem_append.2 (Or.inl hc)⟩
          rw [pyGet_nonneg _ _ (by omega : (0:Int) ≤ NVi)]
          rw [pySet_get?_eq _ (by omega : (0:Int) ≤ NVi) (by
            rw [pySet_length, List.length_append, List.length_singleton]
            omega)]
        · rw [if_neg hc]
          exact hmemF e0.he_u e0.u rueN bu0 bu1 hrueN humemN hc
      · dsimp only
        by_cases hc : e0.he_v ∈ moved
        · rw [if_pos hc]
          refine ⟨moved ++ [nh + 1], ?_, List.mem_append.2 (Or.inl hc)⟩
          rw [pyGet_nonneg _ _ (by omega : (0:Int) ≤ NVi)]
          rw [pySet_get?_eq _ (by omega : (0:Int) ≤ NVi) (by
            rw [pySet_length, List.length_append, List.length_singleton]
            omega)]
        · rw [if_neg hc]
          exact hmemF e0.he_v e0.v rveN bv0 bv1 hrveN hvmemN hc
    · rw [List.mem_singleton] at hnew
      subst hnew
      refine ⟨?_, ?_, ?_, ?_, ?_, ?_, ?_, ?_, ?_, ?_⟩
      · dsimp only
        omega
      · dsimp only
        rw [List.length_append, List.length_singleton]
        omega
      · dsimp only
        omega
      · dsimp only
        rw [List.length_append]
        simp only [List.length_cons, List.length_nil]
        omega
      · dsimp only
        omega
      · dsimp only
        rw [List.length_append]
        simp only [List.length_cons, List.length_nil]
        omega
      · dsimp only
        refine ⟨⟨nh, (es1.length : Int), v⟩, ?_, rfl, rfl⟩
        rw [List.get?_append_right (by omega : hs1.length ≤ nh.toNat)]
        rw [show nh.toNat - hs1.length = 0 by omega]
        rfl
      · dsimp only
        refine ⟨⟨nh + 1, (es1.length : Int), NVi⟩, ?_, rfl, rfl⟩
        rw [List.get?_append_right (by omega : hs1.length ≤ (nh + 1).toNat)]
        rw [show (nh + 1).toNat - hs1.length = 1 by omega]
        rfl
      · dsimp only
        refine ⟨remaining ++ [nh], ?_, List.mem_append.2 (Or.inr (List.mem_singleton.2 rfl))⟩
        rw [pyGet_nonneg _ _ hv0]
        rw [pySet_get?_ne _ (by omega : (0:Int) ≤ NVi) (by omega : v.toNat ≠ NVi.toNat)]
        rw [pySet_get?_eq _ hv0 (by
          rw [List.length_append, List.length_singleton]
          omega)]
      · dsimp only
        refine ⟨moved ++ [nh + 1], ?_, List.mem_append.2 (Or.inr (List.mem_singleton.2 rfl))⟩
        rw [pyGet_nonneg _ _ (by omega : (0:Int) ≤ NVi)]
        rw [pySet_get?_eq _ (by omega : (0:Int) ≤ NVi) (by
          rw [pySet_length, List.length_append, List.length_singleton]
          omega)]

/-- C3 counterexample: `exGraphDup` passes `validate` (its rotation at
vertex 0 lists half-edge 0 twice), yet `vertex_split 0 0 1` succeeds and the
resulting graph fails `validate`: preservation does not hold for arbitrary
validated graphs. -/
theorem claim_C3_counterexample :
    validate exGraphDup = true ∧
    (vertex_split exGraphDup 0 0 1).2 = .ok (2, 1) ∧
    validate (vertex_split exGraphDup 0 0 1).1 = false := by
  decide

/-- C3 (corrected): a successful `split_arc` preserves `validate`
unconditionally; a successful `vertex_split` preserves `validate` provided
the input additionally satisfies the three well-formedness side conditions
(edge ids equal their arena indices, no edge uses one half-edge for both
endpoints, no rotation list repeats a half-edge), all of which hold for
graphs produced by the constructor but are not checked by `validate`. -/
theorem claim_C3 :
    (∀ (g g' : EmbeddedDualGraph) (eid r : Int),
      validate g = true → split_arc g eid = (g', .ok r) → validate g' = true) ∧
    (∀ (g g' : EmbeddedDualGraph) (v i j nv ne : Int),
      validate g = true → IdsMatch g → NoDegenerateEdge g → RotNodup g →
      vertex_split g v i j = (g', .ok (nv, ne)) → validate g' = true) :=
  ⟨fun _ _ _ _ hval hok => split_arc_preserves hval hok,
   fun _ _ _ _ _ _ _ hval hids hdeg hnod hok =>
     vertex_split_preserves hval hids hdeg hnod hok⟩

/-- C3 witness: both parts of the corrected statement applied to concrete
graphs — `split_arc exGraph1 0` and `vertex_split exGraph2 0 0 1` both yield
graphs passing `validate`. -/
theorem claim_C3_witness :
    validate (split_arc exGraph1 0).1 = true ∧
    validate (vertex_split exGraph2 0 0 1).1 = true :=
  ⟨claim_C3.1 exGraph1 (split_arc exGraph1 0).1 0 1 (by decide) (by rfl),
   claim_C3.2 exGraph2 (vertex_split exGraph2 0 0 1).1 0 0 1 2 2 (by decide)
     (by
       intro k e hk
       have hb : k < 2 := by
         have h2 := (List.get?_eq_some.1 hk).1
         simpa [exGraph2] using h2
       interval_cases k
       · injection hk with hk
         rw [← hk]
         rfl
       · injection hk with hk
         rw [← hk]
         rfl)
     (by unfold NoDegenerateEdge; decide) (by unfold RotNodup; decide) (by rfl)⟩

end JuleHjerte
